import Mathlib

/-!
Verification of the BC7 texture codec in this repository.

This file gives a shallow embedding, in Lean, of the integer parts of the
BC7 block decoder (src/bc7/decode/block.rs), the bit packing primitives of
the encoder (src/bc7/encode/bc7.rs), the static partition tables shared by
encoder and decoder, the precondition checks of the compress and decompress
entry points, the dispatch skeleton of the per-block compressor, and the
per-texel index quantization steps of the encoder (with the f32 arithmetic
of the source modelled by exact rational arithmetic).

Machine integers of the source (u8, u32, u64, i32) are modelled as Nat or
Int with explicit truncation where the source can wrap; all array reads
whose index depends on input data are modelled with checked (Option valued)
lookups so that in-bounds behaviour is a provable statement.
-/

namespace BC7Spec

/-! ### Bit stream reader (src/bc7/decode/block.rs, struct BitStream)

The reader holds 128 bits as two 64 bit halves.  read_bits removes the
lowest num_bits bits of the combined value, carrying bits across the half
boundary exactly as the source does with shifts and ors.  All call sites
use 1 <= num_bits <= 32, for which no u64 wrapping can occur, so the Nat
operations below agree with the u64 operations of the source. -/

structure BitStream where
  low : Nat
  high : Nat

def BitStream.read_bits (s : BitStream) (num_bits : Nat) : Nat × BitStream :=
  let mask := 2 ^ num_bits - 1
  let bits := s.low &&& mask
  let low := (s.low >>> num_bits) ||| ((s.high &&& mask) <<< (64 - num_bits))
  let high := s.high >>> num_bits
  (bits, { low := low, high := high })

def BitStream.read_bit (s : BitStream) : Nat × BitStream := s.read_bits 1

/-- Little endian recomposition of a byte list, as u64::from_le_bytes does. -/
def leWord8 : List Nat → Nat
  | [] => 0
  | b :: rest => b + 256 * leWord8 rest

/-- Construction of the bit stream from the 16 block bytes
(BitStream::new): the first 8 bytes form the low half, the next 8 the
high half, little endian. -/
def BitStream.ofBytes (data : List Nat) : BitStream :=
  { low := leWord8 (data.take 8), high := leWord8 ((data.drop 8).take 8) }

/-! ### Static decoder tables (src/bc7/decode/block.rs) -/

def ACTUAL_BITS_COUNT : List (List Nat) :=
  [[4, 6, 5, 7, 5, 7, 7, 5],
   [0, 0, 0, 0, 6, 8, 7, 5]]

def WEIGHT2 : List Nat := [0, 21, 43, 64]
def WEIGHT3 : List Nat := [0, 9, 18, 27, 37, 46, 55, 64]
def WEIGHT4 : List Nat := [0, 4, 9, 13, 17, 21, 26, 30, 34, 38, 43, 47, 51, 55, 60, 64]

def MODE_HAS_P_BITS : Nat := 0b11001011

def PARTITION_SETS : List (List (List (List Nat))) :=
  [[
    [[128, 0, 1, 1], [0, 0, 1, 1], [0, 0, 1, 1], [0, 0, 1, 129]],
    [[128, 0, 0, 1], [0, 0, 0, 1], [0, 0, 0, 1], [0, 0, 0, 129]],
    [[128, 1, 1, 1], [0, 1, 1, 1], [0, 1, 1, 1], [0, 1, 1, 129]],
    [[128, 0, 0, 1], [0, 0, 1, 1], [0, 0, 1, 1], [0, 1, 1, 129]],
    [[128, 0, 0, 0], [0, 0, 0, 1], [0, 0, 0, 1], [0, 0, 1, 129]],
    [[128, 0, 1, 1], [0, 1, 1, 1], [0, 1, 1, 1], [1, 1, 1, 129]],
    [[128, 0, 0, 1], [0, 0, 1, 1], [0, 1, 1, 1], [1, 1, 1, 129]],
    [[128, 0, 0, 0], [0, 0, 0, 1], [0, 0, 1, 1], [0, 1, 1, 129]],
    [[128, 0, 0, 0], [0, 0, 0, 0], [0, 0, 0, 1], [0, 0, 1, 129]],
    [[128, 0, 1, 1], [0, 1, 1, 1], [1, 1, 1, 1], [1, 1, 1, 129]],
    [[128, 0, 0, 0], [0, 0, 0, 1], [0, 1, 1, 1], [1, 1, 1, 129]],
    [[128, 0, 0, 0], [0, 0, 0, 0], [0, 0, 0, 1], [0, 1, 1, 129]],
    [[128, 0, 0, 1], [0, 1, 1, 1], [1, 1, 1, 1], [1, 1, 1, 129]],
    [[128, 0, 0, 0], [0, 0, 0, 0], [1, 1, 1, 1], [1, 1, 1, 129]],
    [[128, 0, 0, 0], [1, 1, 1, 1], [1, 1, 1, 1], [1, 1, 1, 129]],
    [[128, 0, 0, 0], [0, 0, 0, 0], [0, 0, 0, 0], [1, 1, 1, 129]],
    [[128, 0, 0, 0], [1, 0, 0, 0], [1, 1, 1, 0], [1, 1, 1, 129]],
    [[128, 1, 129, 1], [0, 0, 0, 1], [0, 0, 0, 0], [0, 0, 0, 0]],
    [[128, 0, 0, 0], [0, 0, 0, 0], [129, 0, 0, 0], [1, 1, 1, 0]],
    [[128, 1, 129, 1], [0, 0, 1, 1], [0, 0, 0, 1], [0, 0, 0, 0]],
    [[128, 0, 129, 1], [0, 0, 0, 1], [0, 0, 0, 0], [0, 0, 0, 0]],
    [[128, 0, 0, 0], [1, 0, 0, 0], [129, 1, 0, 0], [1, 1, 1, 0]],
    [[128, 0, 0, 0], [0, 0, 0, 0], [129, 0, 0, 0], [1, 1, 0, 0]],
    [[128, 1, 1, 1], [0, 0, 1, 1], [0, 0, 1, 1], [0, 0, 0, 129]],
    [[128, 0, 129, 1], [0, 0, 0, 1], [0, 0, 0, 1], [0, 0, 0, 0]],
    [[128, 0, 0, 0], [1, 0, 0, 0], [129, 0, 0, 0], [1, 1, 0, 0]],
    [[128, 1, 129, 0], [0, 1, 1, 0], [0, 1, 1, 0], [0, 1, 1, 0]],
    [[128, 0, 129, 1], [0, 1, 1, 0], [0, 1, 1, 0], [1, 1, 0, 0]],
    [[128, 0, 0, 1], [0, 1, 1, 1], [129, 1, 1, 0], [1, 0, 0, 0]],
    [[128, 0, 0, 0], [1, 1, 1, 1], [129, 1, 1, 1], [0, 0, 0, 0]],
    [[128, 1, 129, 1], [0, 0, 0, 1], [1, 0, 0, 0], [1, 1, 1, 0]],
    [[128, 0, 129, 1], [1, 0, 0, 1], [1, 0, 0, 1], [1, 1, 0, 0]],
    [[128, 1, 0, 1], [0, 1, 0, 1], [0, 1, 0, 1], [0, 1, 0, 129]],
    [[128, 0, 0, 0], [1, 1, 1, 1], [0, 0, 0, 0], [1, 1, 1, 129]],
    [[128, 1, 0, 1], [1, 0, 129, 0], [0, 1, 0, 1], [1, 0, 1, 0]],
    [[128, 0, 1, 1], [0, 0, 1, 1], [129, 1, 0, 0], [1, 1, 0, 0]],
    [[128, 0, 129, 1], [1, 1, 0, 0], [0, 0, 1, 1], [1, 1, 0, 0]],
    [[128, 1, 0, 1], [0, 1, 0, 1], [129, 0, 1, 0], [1, 0, 1, 0]],
    [[128, 1, 1, 0], [1, 0, 0, 1], [0, 1, 1, 0], [1, 0, 0, 129]],
    [[128, 1, 0, 1], [1, 0, 1, 0], [1, 0, 1, 0], [0, 1, 0, 129]],
    [[128, 1, 129, 1], [0, 0, 1, 1], [1, 1, 0, 0], [1, 1, 1, 0]],
    [[128, 0, 0, 1], [0, 0, 1, 1], [129, 1, 0, 0], [1, 0, 0, 0]],
    [[128, 0, 129, 1], [0, 0, 1, 0], [0, 1, 0, 0], [1, 1, 0, 0]],
    [[128, 0, 129, 1], [1, 0, 1, 1], [1, 1, 0, 1], [1, 1, 0, 0]],
    [[128, 1, 129, 0], [1, 0, 0, 1], [1, 0, 0, 1], [0, 1, 1, 0]],
    [[128, 0, 1, 1], [1, 1, 0, 0], [1, 1, 0, 0], [0, 0, 1, 129]],
    [[128, 1, 1, 0], [0, 1, 1, 0], [1, 0, 0, 1], [1, 0, 0, 129]],
    [[128, 0, 0, 0], [0, 1, 129, 0], [0, 1, 1, 0], [0, 0, 0, 0]],
    [[128, 1, 0, 0], [1, 1, 129, 0], [0, 1, 0, 0], [0, 0, 0, 0]],
    [[128, 0, 129, 0], [0, 1, 1, 1], [0, 0, 1, 0], [0, 0, 0, 0]],
    [[128, 0, 0, 0], [0, 0, 129, 0], [0, 1, 1, 1], [0, 0, 1, 0]],
    [[128, 0, 0, 0], [0, 1, 0, 0], [129, 1, 1, 0], [0, 1, 0, 0]],
    [[128, 1, 1, 0], [1, 1, 0, 0], [1, 0, 0, 1], [0, 0, 1, 129]],
    [[128, 0, 1, 1], [0, 1, 1, 0], [1, 1, 0, 0], [1, 0, 0, 129]],
    [[128, 1, 129, 0], [0, 0, 1, 1], [1, 0, 0, 1], [1, 1, 0, 0]],
    [[128, 0, 129, 1], [1, 0, 0, 1], [1, 1, 0, 0], [0, 1, 1, 0]],
    [[128, 1, 1, 0], [1, 1, 0, 0], [1, 1, 0, 0], [1, 0, 0, 129]],
    [[128, 1, 1, 0], [0, 0, 1, 1], [0, 0, 1, 1], [1, 0, 0, 129]],
    [[128, 1, 1, 1], [1, 1, 1, 0], [1, 0, 0, 0], [0, 0, 0, 129]],
    [[128, 0, 0, 1], [1, 0, 0, 0], [1, 1, 1, 0], [0, 1, 1, 129]],
    [[128, 0, 0, 0], [1, 1, 1, 1], [0, 0, 1, 1], [0, 0, 1, 129]],
    [[128, 0, 129, 1], [0, 0, 1, 1], [1, 1, 1, 1], [0, 0, 0, 0]],
    [[128, 0, 129, 0], [0, 0, 1, 0], [1, 1, 1, 0], [1, 1, 1, 0]],
    [[128, 1, 0, 0], [0, 1, 0, 0], [0, 1, 1, 1], [0, 1, 1, 129]]
  ],
  [
    [[128, 0, 1, 129], [0, 0, 1, 1], [0, 2, 2, 1], [2, 2, 2, 130]],
    [[128, 0, 0, 129], [0, 0, 1, 1], [130, 2, 1, 1], [2, 2, 2, 1]],
    [[128, 0, 0, 0], [2, 0, 0, 1], [130, 2, 1, 1], [2, 2, 1, 129]],
    [[128, 2, 2, 130], [0, 0, 2, 2], [0, 0, 1, 1], [0, 1, 1, 129]],
    [[128, 0, 0, 0], [0, 0, 0, 0], [129, 1, 2, 2], [1, 1, 2, 130]],
    [[128, 0, 1, 129], [0, 0, 1, 1], [0, 0, 2, 2], [0, 0, 2, 130]],
    [[128, 0, 2, 130], [0, 0, 2, 2], [1, 1, 1, 1], [1, 1, 1, 129]],
    [[128, 0, 1, 1], [0, 0, 1, 1], [130, 2, 1, 1], [2, 2, 1, 129]],
    [[128, 0, 0, 0], [0, 0, 0, 0], [129, 1, 1, 1], [2, 2, 2, 130]],
    [[128, 0, 0, 0], [1, 1, 1, 1], [129, 1, 1, 1], [2, 2, 2, 130]],
    [[128, 0, 0, 0], [1, 1, 129, 1], [2, 2, 2, 2], [2, 2, 2, 130]],
    [[128, 0, 1, 2], [0, 0, 129, 2], [0, 0, 1, 2], [0, 0, 1, 130]],
    [[128, 1, 1, 2], [0, 1, 129, 2], [0, 1, 1, 2], [0, 1, 1, 130]],
    [[128, 1, 2, 2], [0, 129, 2, 2], [0, 1, 2, 2], [0, 1, 2, 130]],
    [[128, 0, 1, 129], [0, 1, 1, 2], [1, 1, 2, 2], [1, 2, 2, 130]],
    [[128, 0, 1, 129], [2, 0, 0, 1], [130, 2, 0, 0], [2, 2, 2, 0]],
    [[128, 0, 0, 129], [0, 0, 1, 1], [0, 1, 1, 2], [1, 1, 2, 130]],
    [[128, 1, 1, 129], [0, 0, 1, 1], [130, 0, 0, 1], [2, 2, 0, 0]],
    [[128, 0, 0, 0], [1, 1, 2, 2], [129, 1, 2, 2], [1, 1, 2, 130]],
    [[128, 0, 2, 130], [0, 0, 2, 2], [0, 0, 2, 2], [1, 1, 1, 129]],
    [[128, 1, 1, 129], [0, 1, 1, 1], [0, 2, 2, 2], [0, 2, 2, 130]],
    [[128, 0, 0, 129], [0, 0, 0, 1], [130, 2, 2, 1], [2, 2, 2, 1]],
    [[128, 0, 0, 0], [0, 0, 129, 1], [0, 1, 2, 2], [0, 1, 2, 130]],
    [[128, 0, 0, 0], [1, 1, 0, 0], [130, 2, 129, 0], [2, 2, 1, 0]],
    [[128, 1, 2, 130], [0, 129, 2, 2], [0, 0, 1, 1], [0, 0, 0, 0]],
    [[128, 0, 1, 2], [0, 0, 1, 2], [129, 1, 2, 2], [2, 2, 2, 130]],
    [[128, 1, 1, 0], [1, 2, 130, 1], [129, 2, 2, 1], [0, 1, 1, 0]],
    [[128, 0, 0, 0], [0, 1, 129, 0], [1, 2, 130, 1], [1, 2, 2, 1]],
    [[128, 0, 2, 2], [1, 1, 0, 2], [129, 1, 0, 2], [0, 0, 2, 130]],
    [[128, 1, 1, 0], [0, 129, 1, 0], [2, 0, 0, 2], [2, 2, 2, 130]],
    [[128, 0, 1, 1], [0, 1, 2, 2], [0, 1, 130, 2], [0, 0, 1, 129]],
    [[128, 0, 0, 0], [2, 0, 0, 0], [130, 2, 1, 1], [2, 2, 2, 129]],
    [[128, 0, 0, 0], [0, 0, 0, 2], [129, 1, 2, 2], [1, 2, 2, 130]],
    [[128, 2, 2, 130], [0, 0, 2, 2], [0, 0, 1, 2], [0, 0, 1, 129]],
    [[128, 0, 1, 129], [0, 0, 1, 2], [0, 0, 2, 2], [0, 2, 2, 130]],
    [[128, 1, 2, 0], [0, 129, 2, 0], [0, 1, 130, 0], [0, 1, 2, 0]],
    [[128, 0, 0, 0], [1, 1, 129, 1], [2, 2, 130, 2], [0, 0, 0, 0]],
    [[128, 1, 2, 0], [1, 2, 0, 1], [130, 0, 129, 2], [0, 1, 2, 0]],
    [[128, 1, 2, 0], [2, 0, 1, 2], [129, 130, 0, 1], [0, 1, 2, 0]],
    [[128, 0, 1, 1], [2, 2, 0, 0], [1, 1, 130, 2], [0, 0, 1, 129]],
    [[128, 0, 1, 1], [1, 1, 130, 2], [2, 2, 0, 0], [0, 0, 1, 129]],
    [[128, 1, 0, 129], [0, 1, 0, 1], [2, 2, 2, 2], [2, 2, 2, 130]],
    [[128, 0, 0, 0], [0, 0, 0, 0], [130, 1, 2, 1], [2, 1, 2, 129]],
    [[128, 0, 2, 2], [1, 129, 2, 2], [0, 0, 2, 2], [1, 1, 2, 130]],
    [[128, 0, 2, 130], [0, 0, 1, 1], [0, 0, 2, 2], [0, 0, 1, 129]],
    [[128, 2, 2, 0], [1, 2, 130, 1], [0, 2, 2, 0], [1, 2, 2, 129]],
    [[128, 1, 0, 1], [2, 2, 130, 2], [2, 2, 2, 2], [0, 1, 0, 129]],
    [[128, 0, 0, 0], [2, 1, 2, 1], [130, 1, 2, 1], [2, 1, 2, 129]],
    [[128, 1, 0, 129], [0, 1, 0, 1], [0, 1, 0, 1], [2, 2, 2, 130]],
    [[128, 2, 2, 130], [0, 1, 1, 1], [0, 2, 2, 2], [0, 1, 1, 129]],
    [[128, 0, 0, 2], [1, 129, 1, 2], [0, 0, 0, 2], [1, 1, 1, 130]],
    [[128, 0, 0, 0], [2, 129, 1, 2], [2, 1, 1, 2], [2, 1, 1, 130]],
    [[128, 2, 2, 2], [0, 129, 1, 1], [0, 1, 1, 1], [0, 2, 2, 130]],
    [[128, 0, 0, 2], [1, 1, 1, 2], [129, 1, 1, 2], [0, 0, 0, 130]],
    [[128, 1, 1, 0], [0, 129, 1, 0], [0, 1, 1, 0], [2, 2, 2, 130]],
    [[128, 0, 0, 0], [0, 0, 0, 0], [2, 1, 129, 2], [2, 1, 1, 130]],
    [[128, 1, 1, 0], [0, 129, 1, 0], [2, 2, 2, 2], [2, 2, 2, 130]],
    [[128, 0, 2, 2], [0, 0, 1, 1], [0, 0, 129, 1], [0, 0, 2, 130]],
    [[128, 0, 2, 2], [1, 1, 2, 2], [129, 1, 2, 2], [0, 0, 2, 130]],
    [[128, 0, 0, 0], [0, 0, 0, 0], [0, 0, 0, 0], [2, 129, 1, 130]],
    [[128, 0, 0, 130], [0, 0, 0, 1], [0, 0, 0, 2], [0, 0, 0, 129]],
    [[128, 2, 2, 2], [1, 2, 2, 2], [0, 2, 2, 2], [129, 2, 2, 130]],
    [[128, 1, 0, 129], [2, 2, 2, 2], [2, 2, 2, 2], [2, 2, 2, 130]],
    [[128, 1, 1, 129], [2, 0, 1, 1], [130, 2, 0, 1], [2, 2, 2, 0]]
  ]]

/-! ### Decoder (src/bc7/decode/block.rs, decode_block_bc7)

The destination buffer is modelled as a list of bytes; a write at an index
past the end of the list is a no-op of List.set (the source would panic,
and every claim about the decoder assumes a large enough destination).
All table reads whose index depends on the input bits use checked lookups,
so the decoder returns an Option and in-bounds behaviour is provable. -/

/-- Texels of a 4x4 tile in raster order, as the two nested 0..4 loops of
the source visit them. -/
def texelList : List (Nat × Nat) :=
  [(0, 0), (0, 1), (0, 2), (0, 3),
   (1, 0), (1, 1), (1, 2), (1, 3),
   (2, 0), (2, 1), (2, 2), (2, 3),
   (3, 0), (3, 1), (3, 2), (3, 3)]

/-- Writes one RGBA texel at the given offset (four consecutive byte
stores of the source). -/
def write4 (dest : List Nat) (offset r g b a : Nat) : List Nat :=
  (((dest.set offset r).set (offset + 1) g).set (offset + 2) b).set (offset + 3) a

/-- Fallback path of the decoder for an unexpected mode: clear the block
to transparent black (lines 167-175 of the source). -/
def clear_block (dest : List Nat) (pitch : Nat) : List Nat :=
  texelList.foldl (fun d ij => write4 d (ij.1 * pitch + ij.2 * 4) 0 0 0 0) dest

/-- Mode scan: position of the first set bit among the first 8 bits of the
stream; 8 if none is set.  Mirrors the while loop of the source, which
tests mode < 8 before each read, so at most 8 bits are consumed. -/
def find_mode_go : Nat → Nat → BitStream → Nat × BitStream
  | 0, mode, s => (mode, s)
  | fuel + 1, mode, s =>
    if mode < 8 then
      let r := s.read_bit
      if r.1 = 0 then find_mode_go fuel (mode + 1) r.2 else (mode, r.2)
    else (mode, s)

def find_mode (s : BitStream) : Nat × BitStream := find_mode_go 9 0 s

/-- Primary index width by mode (the match on mode in the source). -/
def index_bits_of (mode : Nat) : Nat :=
  if mode = 0 ∨ mode = 1 then 3 else if mode = 6 then 4 else 2

/-- Secondary index width by mode. -/
def index_bits2_of (mode : Nat) : Nat :=
  if mode = 4 then 3 else if mode = 5 then 2 else 0

def weights_of (mode : Nat) : List Nat :=
  match index_bits_of mode with
  | 2 => WEIGHT2
  | 3 => WEIGHT3
  | _ => WEIGHT4

def weights2_of (mode : Nat) : List Nat :=
  match index_bits2_of mode with
  | 2 => WEIGHT2
  | _ => WEIGHT3

/-- Subset entry of a texel: for one partition the source treats texel 0 as
the fixup (value 128) and every other texel as subset 0; otherwise it reads
the static partition table. -/
def partition_set_of (num_partitions partition i j : Nat) : Option Nat :=
  if num_partitions = 1 then
    some (if i ||| j = 0 then 128 else 0)
  else
    (PARTITION_SETS.get? (num_partitions - 2)).bind fun t =>
      (t.get? partition).bind fun p =>
        (p.get? i).bind fun row => row.get? j

/-- Endpoint storage: the 6 x 4 i32 array of the source, flattened so that
endpoint j component k lives at index j * 4 + k. -/
def epIdx (j k : Nat) : Nat := j * 4 + k

def ep_get (endpoints : List Nat) (j k : Nat) : Option Nat :=
  endpoints.get? (epIdx j k)

/-- Integer weighted interpolation (fn interpolate of the source), with a
checked weight table lookup. -/
def interpolate (a b : Nat) (weights : List Nat) (index : Nat) : Option Nat :=
  (weights.get? index).map fun w => (a * (64 - w) + b * w + 32) >>> 6

/-- RGB endpoint extraction: component i read for each endpoint j in turn
(outer loop over the 3 components, inner over the endpoints). -/
def read_rgb_endpoints (cbits num_endpoints : Nat) (ep : List Nat) (s : BitStream) :
    List Nat × BitStream :=
  ((List.range 3).flatMap fun i => (List.range num_endpoints).map fun j => (i, j)).foldl
    (fun st ij =>
      let r := st.2.read_bits cbits
      (st.1.set (epIdx ij.2 ij.1) r.1, r.2))
    (ep, s)

/-- Alpha endpoint extraction (only when the mode has alpha bits). -/
def read_alpha_endpoints (abits num_endpoints : Nat) (ep : List Nat) (s : BitStream) :
    List Nat × BitStream :=
  (List.range num_endpoints).foldl
    (fun st j =>
      let r := st.2.read_bits abits
      (st.1.set (epIdx j 3) r.1, r.2))
    (ep, s)

/-- Component-wise left shift by one of the first num_endpoints endpoints
(the p-bit pre-shift of the source). -/
def shl1_endpoints (num_endpoints : Nat) (ep : List Nat) : List Nat :=
  (List.range (num_endpoints * 4)).foldl (fun e idx => e.set idx (e.getD idx 0 <<< 1)) ep

/-- Shared p-bit insertion of mode 1: bit i into the RGB components of
endpoints 0 and 1, bit j into those of endpoints 2 and 3. -/
def insert_shared_pbits (ep : List Nat) (s : BitStream) : List Nat × BitStream :=
  let ri := s.read_bit
  let rj := ri.2.read_bit
  let e := (List.range 3).foldl
    (fun e k =>
      let e := e.set (epIdx 0 k) (e.getD (epIdx 0 k) 0 ||| ri.1)
      let e := e.set (epIdx 1 k) (e.getD (epIdx 1 k) 0 ||| ri.1)
      let e := e.set (epIdx 2 k) (e.getD (epIdx 2 k) 0 ||| rj.1)
      e.set (epIdx 3 k) (e.getD (epIdx 3 k) 0 ||| rj.1))
    ep
  (e, rj.2)

/-- Unique p-bit insertion (modes 0, 3, 6, 7): one bit per endpoint, ored
into all four components. -/
def insert_unique_pbits (num_endpoints : Nat) (ep : List Nat) (s : BitStream) :
    List Nat × BitStream :=
  (List.range num_endpoints).foldl
    (fun st j =>
      let r := st.2.read_bit
      let e := (List.range 4).foldl
        (fun e k => e.set (epIdx j k) (e.getD (epIdx j k) 0 ||| r.1)) st.1
      (e, r.2))
    (ep, s)

/-- Precision adjustment: left-align each component to bit 7 and replicate
its most significant bits into the newly exposed low bits. -/
def expand_component (v bits : Nat) : Nat :=
  let vv := v <<< (8 - bits)
  vv ||| (vv >>> bits)

def adjust_precision (num_endpoints cbits_total abits_total : Nat) (ep : List Nat) : List Nat :=
  (List.range num_endpoints).foldl
    (fun e i =>
      let e := (List.range 3).foldl
        (fun e k => e.set (epIdx i k) (expand_component (e.getD (epIdx i k) 0) cbits_total)) e
      e.set (epIdx i 3) (expand_component (e.getD (epIdx i 3) 0) abits_total))
    ep

/-- Forced opaque alpha for modes without alpha bits. -/
def force_alpha_255 (num_endpoints : Nat) (ep : List Nat) : List Nat :=
  (List.range num_endpoints).foldl (fun e j => e.set (epIdx j 3) 255) ep

/-- Index collection pass: one primary index per texel, with one bit less
at each fixup texel (table entry with the high bit set). -/
def pass1_go (mode num_partitions partition : Nat) :
    List (Nat × Nat) → List Nat → BitStream → Option (List Nat × BitStream)
  | [], indices, s => some (indices, s)
  | ij :: rest, indices, s =>
    (partition_set_of num_partitions partition ij.1 ij.2).bind fun pset =>
      let ib := index_bits_of mode
      let idx_bits := if pset &&& 0x80 ≠ 0 then ib - 1 else ib
      let r := s.read_bits idx_bits
      pass1_go mode num_partitions partition rest (indices.set (ij.1 * 4 + ij.2) r.1) r.2

/-- One interpolated channel value between the two endpoints of a subset. -/
def interp_channel (endpoints : List Nat) (pset k : Nat) (w : List Nat) (idx : Nat) :
    Option Nat :=
  (ep_get endpoints (pset * 2) k).bind fun a =>
    (ep_get endpoints (pset * 2 + 1) k).bind fun b => interpolate a b w idx

/-- Rotation: swap alpha with the channel selected by the 2 bit field. -/
def apply_rotation (rotation r g b a : Nat) : Nat × Nat × Nat × Nat :=
  if rotation = 1 then (a, g, b, r)
  else if rotation = 2 then (r, a, b, g)
  else if rotation = 3 then (r, g, a, b)
  else (r, g, b, a)

/-- Interpolation pass: secondary index read (dual index modes only),
channel interpolation, rotation, and the four byte stores per texel. -/
def pass2_go (mode num_partitions partition rotation isb : Nat)
    (endpoints weights weights2 indices : List Nat) (pitch : Nat) :
    List (Nat × Nat) → List Nat → BitStream → Option (List Nat)
  | [], dest, _ => some dest
  | ij :: rest, dest, s =>
    (partition_set_of num_partitions partition ij.1 ij.2).bind fun pset0 =>
      let pset := pset0 &&& 3
      let index := indices.getD (ij.1 * 4 + ij.2) 0
      let ib2 := index_bits2_of mode
      let step : Option ((Nat × Nat × Nat × Nat) × BitStream) :=
        if ib2 = 0 then
          (interp_channel endpoints pset 0 weights index).bind fun r =>
            (interp_channel endpoints pset 1 weights index).bind fun g =>
              (interp_channel endpoints pset 2 weights index).bind fun b =>
                (interp_channel endpoints pset 3 weights index).map fun a => ((r, g, b, a), s)
        else
          let r2 := s.read_bits (if ij.1 ||| ij.2 = 0 then ib2 - 1 else ib2)
          let index2 := r2.1
          if isb = 0 then
            (interp_channel endpoints pset 0 weights index).bind fun r =>
              (interp_channel endpoints pset 1 weights index).bind fun g =>
                (interp_channel endpoints pset 2 weights index).bind fun b =>
                  (interp_channel endpoints pset 3 weights2 index2).map fun a =>
                    ((r, g, b, a), r2.2)
          else
            (interp_channel endpoints pset 0 weights2 index2).bind fun r =>
              (interp_channel endpoints pset 1 weights2 index2).bind fun g =>
                (interp_channel endpoints pset 2 weights2 index2).bind fun b =>
                  (interp_channel endpoints pset 3 weights index).map fun a =>
                    ((r, g, b, a), r2.2)
      step.bind fun cs =>
        let rot := apply_rotation rotation cs.1.1 cs.1.2.1 cs.1.2.2.1 cs.1.2.2.2
        let offset := ij.1 * pitch + ij.2 * 4
        let dest := write4 dest offset (rot.1 % 256) (rot.2.1 % 256) (rot.2.2.1 % 256)
          (rot.2.2.2 % 256)
        pass2_go mode num_partitions partition rotation isb endpoints weights weights2 indices
          pitch rest dest cs.2

/-- Header fields of modes with partitions: the partition count and the 4
or 6 bit partition id. -/
def decode_header (mode : Nat) (s : BitStream) : (Nat × Nat) × BitStream :=
  if mode = 0 ∨ mode = 1 ∨ mode = 2 ∨ mode = 3 ∨ mode = 7 then
    let np := if mode = 0 ∨ mode = 2 then 3 else 2
    let r := s.read_bits (if mode = 0 then 4 else 6)
    ((np, r.1), r.2)
  else ((1, 0), s)

/-- Rotation and index selection fields of the dual index modes. -/
def decode_rotation (mode : Nat) (s : BitStream) : (Nat × Nat) × BitStream :=
  if mode = 4 ∨ mode = 5 then
    let r := s.read_bits 2
    if mode = 4 then
      let r2 := r.2.read_bit
      ((r.1, r2.1), r2.2)
    else ((r.1, 0), r.2)
  else ((0, 0), s)

/-- Endpoint extraction and full decode: raw component reads, p-bit
insertion, precision adjustment, and the forced opaque alpha. -/
def decode_endpoints (mode num_endpoints cbits abits : Nat) (s : BitStream) :
    List Nat × BitStream :=
  let st := read_rgb_endpoints cbits num_endpoints (List.replicate 24 0) s
  let st :=
    if abits > 0 then read_alpha_endpoints abits num_endpoints st.1 st.2 else st
  let st :=
    if mode = 0 ∨ mode = 1 ∨ mode = 3 ∨ mode = 6 ∨ mode = 7 then
      let e := shl1_endpoints num_endpoints st.1
      if mode = 1 then insert_shared_pbits e st.2
      else if MODE_HAS_P_BITS &&& (1 <<< mode) ≠ 0 then
        insert_unique_pbits num_endpoints e st.2
      else (e, st.2)
    else st
  let pbit := (MODE_HAS_P_BITS >>> mode) &&& 1
  let e := adjust_precision num_endpoints (cbits + pbit) (abits + pbit) st.1
  ((if abits = 0 then force_alpha_255 num_endpoints e else e), st.2)

/-- Decoder body once a valid mode (less than 8) has been found. -/
def decode_with_mode (mode : Nat) (s : BitStream) (dest : List Nat) (pitch : Nat) :
    Option (List Nat) :=
  let hdr := decode_header mode s
  let num_partitions := hdr.1.1
  let partition := hdr.1.2
  let rot := decode_rotation mode hdr.2
  let rotation := rot.1.1
  let index_selection_bit := rot.1.2
  let num_endpoints := num_partitions * 2
  let cbits := (ACTUAL_BITS_COUNT.getD 0 []).getD mode 0
  let abits := (ACTUAL_BITS_COUNT.getD 1 []).getD mode 0
  let ep := decode_endpoints mode num_endpoints cbits abits rot.2
  (pass1_go mode num_partitions partition texelList (List.replicate 16 0) ep.2).bind fun p1 =>
    pass2_go mode num_partitions partition rotation index_selection_bit ep.1
      (weights_of mode) (weights2_of mode) p1.1 pitch texelList dest p1.2

/-- Full block decoder (decode_block_bc7 of the source): mode scan, the
transparent black fallback for an unexpected mode, and the mode body. -/
def decode_block_bc7 (compressed : BitStream) (dest : List Nat) (pitch : Nat) :
    Option (List Nat) :=
  let m := find_mode compressed
  if 8 ≤ m.1 then some (clear_block dest pitch)
  else decode_with_mode m.1 m.2 dest pitch

/-! ### Encoder static tables (src/bc7/encode/bc7.rs)

The encoder packs each 2 bit subset id of a partition into one 32 bit
pattern word (PATTERN_TABLE, entries 0..=63 for the 2 subset partitions
and 64..=127 for the 3 subset ones) and the non-zero fixup texel indices
into one byte (SKIP_TABLE, high nibble = fixup of subset 1, low nibble =
fixup of subset 2). -/

def PATTERN_TABLE : List Nat := [
  0x50505050, 0x40404040, 0x54545454, 0x54505040, 0x50404000, 0x55545450, 0x55545040, 0x54504000,
  0x50400000, 0x55555450, 0x55544000, 0x54400000, 0x55555440, 0x55550000, 0x55555500, 0x55000000,
  0x55150100, 0x00004054, 0x15010000, 0x00405054, 0x00004050, 0x15050100, 0x05010000, 0x40505054,
  0x00404050, 0x05010100, 0x14141414, 0x05141450, 0x01155440, 0x00555500, 0x15014054, 0x05414150,
  0x44444444, 0x55005500, 0x11441144, 0x05055050, 0x05500550, 0x11114444, 0x41144114, 0x44111144,
  0x15055054, 0x01055040, 0x05041050, 0x05455150, 0x14414114, 0x50050550, 0x41411414, 0x00141400,
  0x00041504, 0x00105410, 0x10541000, 0x04150400, 0x50410514, 0x41051450, 0x05415014, 0x14054150,
  0x41050514, 0x41505014, 0x40011554, 0x54150140, 0x50505500, 0x00555050, 0x15151010, 0x54540404,
  0xAA685050, 0x6A5A5040, 0x5A5A4200, 0x5450A0A8, 0xA5A50000, 0xA0A05050, 0x5555A0A0, 0x5A5A5050,
  0xAA550000, 0xAA555500, 0xAAAA5500, 0x90909090, 0x94949494, 0xA4A4A4A4, 0xA9A59450, 0x2A0A4250,
  0xA5945040, 0x0A425054, 0xA5A5A500, 0x55A0A0A0, 0xA8A85454, 0x6A6A4040, 0xA4A45000, 0x1A1A0500,
  0x0050A4A4, 0xAAA59090, 0x14696914, 0x69691400, 0xA08585A0, 0xAA821414, 0x50A4A450, 0x6A5A0200,
  0xA9A58000, 0x5090A0A8, 0xA8A09050, 0x24242424, 0x00AA5500, 0x24924924, 0x24499224, 0x50A50A50,
  0x500AA550, 0xAAAA4444, 0x66660000, 0xA5A0A5A0, 0x50A050A0, 0x69286928, 0x44AAAA44, 0x66666600,
  0xAA444444, 0x54A854A8, 0x95809580, 0x96969600, 0xA85454A8, 0x80959580, 0xAA141414, 0x96960000,
  0xAAAA1414, 0xA05050A0, 0xA0A5A5A0, 0x96000000, 0x40804080, 0xA9A8A9A8, 0xAAAAAA44, 0x2A4A5254
]

def SKIP_TABLE : List Nat := [
  0xF0, 0xF0, 0xF0, 0xF0, 0xF0, 0xF0, 0xF0, 0xF0,
  0xF0, 0xF0, 0xF0, 0xF0, 0xF0, 0xF0, 0xF0, 0xF0,
  0xF0, 0x20, 0x80, 0x20, 0x20, 0x80, 0x80, 0xF0,
  0x20, 0x80, 0x20, 0x20, 0x80, 0x80, 0x20, 0x20,
  0xF0, 0xF0, 0x60, 0x80, 0x20, 0x80, 0xF0, 0xF0,
  0x20, 0x80, 0x20, 0x20, 0x20, 0xF0, 0xF0, 0x60,
  0x60, 0x20, 0x60, 0x80, 0xF0, 0xF0, 0x20, 0x20,
  0xF0, 0xF0, 0xF0, 0xF0, 0xF0, 0x20, 0x20, 0xF0,
  0x3F, 0x38, 0xF8, 0xF3, 0x8F, 0x3F, 0xF3, 0xF8,
  0x8F, 0x8F, 0x6F, 0x6F, 0x6F, 0x5F, 0x3F, 0x38,
  0x3F, 0x38, 0x8F, 0xF3, 0x3F, 0x38, 0x6F, 0xA8,
  0x53, 0x8F, 0x86, 0x6A, 0x8F, 0x5F, 0xFA, 0xF8,
  0x8F, 0xF3, 0x3F, 0x5A, 0x6A, 0xA8, 0x89, 0xFA,
  0xF6, 0x3F, 0xF8, 0x5F, 0xF3, 0xF6, 0xF6, 0xF8,
  0x3F, 0xF3, 0x5F, 0x5F, 0x5F, 0x8F, 0x5F, 0xAF,
  0x5F, 0xAF, 0x8F, 0xDF, 0xF3, 0xCF, 0x3F, 0x38
]

/-- Packed partition pattern word of a partition id (fn get_pattern).  All
uses of this function in the source index the table with 0 <= part_id < 128;
on that domain the total getD lookup agrees with the panicking array read. -/
def get_pattern (part_id : Nat) : Nat := PATTERN_TABLE.getD part_id 0

/-- Fixup texel indices of a partition id (fn get_skips): subset 0 always
has fixup texel 0; the packed byte carries the other two. -/
def get_skips (part_id : Nat) : List Nat :=
  let skip_packed := SKIP_TABLE.getD part_id 0
  [0, skip_packed >>> 4, skip_packed &&& 15]

/-! ### Bit writer (src/bc7/encode/bc7.rs, fn put_bits)

The writer accumulates into five 32 bit words.  The u32 left shift of the
source wraps modulo 2 to the 32, hence the explicit mod; the right shift by
32 - pos mod 32 is only reached when pos mod 32 + bits > 32, in which case
the shift amount is between 1 and 31, so no u32 shift overflow occurs. -/

def put_bits (data : List Nat) (pos bits v : Nat) : List Nat × Nat :=
  let d1 := data.set (pos / 32) (data.getD (pos / 32) 0 ||| ((v <<< (pos % 32)) % 2 ^ 32))
  let d2 :=
    if pos % 32 + bits > 32 then
      d1.set (pos / 32 + 1) (d1.getD (pos / 32 + 1) 0 ||| (v >>> (32 - pos % 32)))
    else d1
  (d2, pos + bits)

/-- Writing a sequence of (width, value) pairs with put_bits into the five
zeroed scratch words, starting at position 0 (as the encoder does after
clearing self.data). -/
def write_values (pairs : List (Nat × Nat)) : List Nat × Nat :=
  pairs.foldl (fun st nv => put_bits st.1 st.2 nv.1 nv.2) ([0, 0, 0, 0, 0], 0)

/-- Byte image of the first four scratch words, little endian, exactly the
16 bytes that store_data emits for one block. -/
def dataBytes (data : List Nat) : List Nat :=
  (List.range 4).flatMap fun index =>
    let value := data.getD index 0
    [value % 256, (value >>> 8) % 256, (value >>> 16) % 256, (value >>> 24) % 256]

/-- Reading a list of widths in order with BitStream::read_bits. -/
def read_values : BitStream → List Nat → List Nat
  | _, [] => []
  | s, n :: rest =>
    let r := s.read_bits n
    r.1 :: read_values r.2 rest

/-- Value packed by a list of (width, value) pairs, first pair in the
lowest bits. -/
def packValues : List (Nat × Nat) → Nat
  | [] => 0
  | (n, v) :: rest => v + 2 ^ n * packValues rest

/-- Combined value of the scratch words, word 0 in the lowest bits. -/
def combined : List Nat → Nat
  | [] => 0
  | w :: rest => w + 2 ^ 32 * combined rest

/-! ### Entry point preconditions (src/bc7/encode.rs and src/bc7/decode.rs)

compress_rgba8 asserts that height and width are multiples of 4 and that
the blocks buffer is at least blocks_byte_size bytes; decompress_blocks_as_
rgba8 asserts exact equality of the blocks buffer with blocks_byte_size and
of the pixel buffer with width * height * 4, and performs no multiple-of-4
check.  These Bool predicates hold exactly when the asserts pass. -/

def blocks_byte_size (width height : Nat) : Nat :=
  ((width + 3) / 4) * ((height + 3) / 4) * 16

def compress_preconditions_ok (width height blocksLen : Nat) : Bool :=
  height % 4 == 0 && width % 4 == 0 && decide (blocks_byte_size width height ≤ blocksLen)

def decompress_preconditions_ok (width height blocksLen rgbaLen : Nat) : Bool :=
  blocksLen == blocks_byte_size width height && rgbaLen == width * height * 4

/-! ### Compressor dispatch skeleton (src/bc7/encode/bc7.rs)

compress_block_bc7_core tries the mode searches gated by the four
mode_selection flags; bc7_enc_mode13 and bc7_enc_mode7 return immediately,
before touching any compressor state, when their fast skip thresholds are
zero.  The mode searches themselves work in f32 arithmetic and are taken
here as opaque parameters acting on the output words self.data; the
dispatch and the early return guards are translated from the source, and
the claims proved about this skeleton hold for every choice of the search
bodies, in particular for the real ones. -/

structure BC7Settings where
  refine_iterations : List Nat
  mode_selection : List Nat
  skip_mode2 : Nat
  fast_skip_threshold_mode1 : Nat
  fast_skip_threshold_mode3 : Nat
  fast_skip_threshold_mode7 : Nat
  mode45_channel0 : Nat
  refine_iterations_channel : Nat
  channels : Nat

/-- Early return guard of bc7_enc_mode13: a no-op when both fast skip
thresholds are zero. -/
def bc7_enc_mode13 (settings : BC7Settings) (body : List Nat → List Nat)
    (data : List Nat) : List Nat :=
  if settings.fast_skip_threshold_mode1 = 0 ∧ settings.fast_skip_threshold_mode3 = 0 then data
  else body data

/-- Early return guard of bc7_enc_mode7: a no-op when the mode 7 fast skip
threshold is zero. -/
def bc7_enc_mode7 (settings : BC7Settings) (body : List Nat → List Nat)
    (data : List Nat) : List Nat :=
  if settings.fast_skip_threshold_mode7 = 0 then data else body data

/-- Mode dispatch of compress_block_bc7_core over the output words. -/
def compress_block_bc7_core (settings : BC7Settings)
    (enc02 enc13 enc7 enc45 enc6 : List Nat → List Nat) (data : List Nat) : List Nat :=
  let d := if settings.mode_selection.getD 0 0 ≠ 0 then enc02 data else data
  let d :=
    if settings.mode_selection.getD 1 0 ≠ 0 then
      bc7_enc_mode7 settings enc7 (bc7_enc_mode13 settings enc13 d)
    else d
  let d := if settings.mode_selection.getD 2 0 ≠ 0 then enc45 d else d
  if settings.mode_selection.getD 3 0 ≠ 0 then enc6 d else d

/-- Byte store of the four output words into the caller's blocks buffer at
block coordinates (xx, yy) (fn store_data). -/
def store_data (data : List Nat) (blocks_buffer : List Nat) (block_width xx yy : Nat) :
    List Nat :=
  let offset := (yy * block_width + xx) * 16
  (List.range 4).foldl
    (fun buf index =>
      let value := data.getD index 0
      let byte_offset := offset + index * 4
      let b := buf.set byte_offset (value % 256)
      let b := b.set (byte_offset + 1) ((value >>> 8) % 256)
      let b := b.set (byte_offset + 2) ((value >>> 16) % 256)
      b.set (byte_offset + 3) ((value >>> 24) % 256))
    blocks_buffer

/-! ### Per texel index quantization (src/bc7/encode/bc7.rs)

block_quant and channel_opt_quant assign each texel one of the two
quantization indices q1_clamped - 1 and q1_clamped, keeping the one with
the smaller squared reconstruction error.  The f32 arithmetic of the
source is modelled with exact rationals: the float literal 0.001 is
modelled as 1/1000, an f32 to i32 as-cast as a saturating truncation
toward zero, and the i32 division by 64 as truncating integer division.
This model is exact at the integer valued inputs used in the concrete
evaluations below. -/

/-- Saturating truncation toward zero of a rational, as a Rust f32 to i32
as-cast behaves on finite values. -/
def f32_as_i32 (q : ℚ) : Int :=
  max (-(2 ^ 31)) (min (2 ^ 31 - 1) (Int.tdiv q.num q.den))

/-- On non-negative rationals within the i32 range, the saturating
truncation toward zero agrees with the floor. -/
theorem f32_as_i32_eq_floor (q : ℚ) (h0 : 0 ≤ q) (h1 : q ≤ 2 ^ 31 - 1) :
    f32_as_i32 q = ⌊q⌋ := by
  have hnum : 0 ≤ q.num := Rat.num_nonneg.mpr h0
  have hden : 0 ≤ (q.den : Int) := Int.ofNat_nonneg q.den
  have htd : Int.tdiv q.num q.den = ⌊q⌋ := by
    rw [Int.tdiv_eq_ediv hnum hden]
    exact (Rat.floor_def).symm
  have hfl0 : 0 ≤ ⌊q⌋ := Int.le_floor.mpr (by exact_mod_cast h0)
  have hfl1 : ⌊q⌋ ≤ 2 ^ 31 - 1 := by
    have := Int.floor_le_floor h1
    simpa using this.trans_eq (by norm_num)
  unfold f32_as_i32
  rw [htd, min_eq_right hfl1, max_eq_right (by omega)]

/-- Unquantization weight tables (fn get_unquant_value).  The source
indexes with a non-negative in-range i32; the total getD lookup agrees
with the panicking array read on that domain. -/
def get_unquant_value (bits : Nat) (index : Int) : Int :=
  if bits = 2 then
    ([0, 21, 43, 64, 0, 0, 0, 0, 0, 0, 0, 0, 0, 0, 0, 0] : List Int).getD index.toNat 0
  else if bits = 3 then
    ([0, 9, 18, 27, 37, 46, 55, 64, 0, 0, 0, 0, 0, 0, 0, 0] : List Int).getD index.toNat 0
  else
    ([0, 4, 9, 13, 17, 21, 26, 30, 34, 38, 43, 47, 51, 55, 60, 64] : List Int).getD index.toNat 0

/-- Result of one texel of channel_opt_quant or block_quant, exposing the
intermediate quantities the source computes as locals. -/
structure QuantStep where
  q1_clamped : Int
  err0 : ℚ
  err1 : ℚ
  best_q : Int
  best_err : ℚ

/-- Loop body of channel_opt_quant for one texel: project the value onto
the endpoint segment, try the two neighbouring indices, keep the better. -/
def channel_opt_quant_step (bits : Nat) (ep0 ep1 v : ℚ) : QuantStep :=
  let levels : Int := 2 ^ bits
  let proj := (v - ep0) / (ep1 - ep0 + 1 / 1000)
  let q1 := f32_as_i32 (proj * (levels : ℚ) + 1 / 2)
  let q1_clamped := max 1 (min (levels - 1) q1)
  let w0 := get_unquant_value bits (q1_clamped - 1)
  let w1 := get_unquant_value bits q1_clamped
  let dec_v0 : ℚ := (((64 - w0) * f32_as_i32 ep0 + w0 * f32_as_i32 ep1 + 32).tdiv 64 : Int)
  let dec_v1 : ℚ := (((64 - w1) * f32_as_i32 ep0 + w1 * f32_as_i32 ep1 + 32).tdiv 64 : Int)
  let err0 := (dec_v0 - v) * (dec_v0 - v)
  let err1 := (dec_v1 - v) * (dec_v1 - v)
  let best_err := if err0 < err1 then err0 else err1
  let best_q := if err0 < err1 then q1_clamped - 1 else q1_clamped
  { q1_clamped := q1_clamped, err0 := err0, err1 := err1, best_q := best_q,
    best_err := best_err }

/-- Loop body of block_quant for one texel: the same two candidate scheme
over the active channels of one subset, with the projection divided by the
squared endpoint distance. -/
def block_quant_step (bits channels : Nat) (epA epB bv : List ℚ) : QuantStep :=
  let levels : Int := 2 ^ bits
  let proj0 := ((List.range channels).map fun p =>
    (bv.getD p 0 - epA.getD p 0) * (epB.getD p 0 - epA.getD p 0)).sum
  let div := ((List.range channels).map fun p =>
    (epB.getD p 0 - epA.getD p 0) * (epB.getD p 0 - epA.getD p 0)).sum
  let proj := proj0 / div
  let q1 := f32_as_i32 (proj * (levels : ℚ) + 1 / 2)
  let q1_clamped := max 1 (min (levels - 1) q1)
  let w0 := get_unquant_value bits (q1_clamped - 1)
  let w1 := get_unquant_value bits q1_clamped
  let err0 := ((List.range channels).map fun p =>
    let d : ℚ := (((64 - w0) * f32_as_i32 (epA.getD p 0) + w0 * f32_as_i32 (epB.getD p 0)
      + 32).tdiv 64 : Int)
    (d - bv.getD p 0) * (d - bv.getD p 0)).sum
  let err1 := ((List.range channels).map fun p =>
    let d : ℚ := (((64 - w1) * f32_as_i32 (epA.getD p 0) + w1 * f32_as_i32 (epB.getD p 0)
      + 32).tdiv 64 : Int)
    (d - bv.getD p 0) * (d - bv.getD p 0)).sum
  let best_err := if err0 < err1 then err0 else err1
  let best_q := if err0 < err1 then q1_clamped - 1 else q1_clamped
  { q1_clamped := q1_clamped, err0 := err0, err1 := err1, best_q := best_q,
    best_err := best_err }

/-! ### Helper lemmas about the bit reader and zero filling writes -/

/-- Bits shifted up by at least k do not change a value modulo 2 to the k. -/
theorem lor_shiftLeft_mod (a x k n : Nat) (h : k ≤ n) :
    (a ||| (x <<< n)) % 2 ^ k = a % 2 ^ k := by
  rw [← Nat.and_pow_two_sub_one_eq_mod (a ||| (x <<< n)), Nat.and_distrib_right]
  have hz : (x <<< n) &&& (2 ^ k - 1) = 0 := by
    rw [Nat.and_pow_two_sub_one_eq_mod, Nat.shiftLeft_eq]
    have hdvd : 2 ^ k ∣ x * 2 ^ n := Dvd.dvd.mul_left (pow_dvd_pow 2 h) x
    exact Nat.mod_eq_zero_of_dvd hdvd
  rw [hz]
  simp [Nat.and_pow_two_sub_one_eq_mod]

theorem read_bit_fst (s : BitStream) : s.read_bit.1 = s.low % 2 := by
  show s.low &&& (2 ^ 1 - 1) = s.low % 2
  rw [Nat.and_pow_two_sub_one_eq_mod]

theorem read_bit_snd_low (s : BitStream) :
    s.read_bit.2.low = (s.low >>> 1) ||| ((s.high &&& 1) <<< 63) := rfl

/-- When the low byte of the stream is all zero, the mode scan runs off the
end and reports mode 8. -/
theorem find_mode_go_all_zero :
    ∀ (fuel mode : Nat) (s : BitStream), mode + fuel = 9 → mode ≤ 8 →
      s.low % 2 ^ (8 - mode) = 0 → (find_mode_go fuel mode s).1 = 8 := by
  intro fuel
  induction fuel with
  | zero => intro mode s hfm hm _; omega
  | succ n ih =>
    intro mode s hfm hm hz
    simp only [find_mode_go]
    by_cases h8 : mode < 8
    · rw [if_pos h8]
      have hbit : s.read_bit.1 = 0 := by
        rw [read_bit_fst]
        have h2 : (2 : Nat) ∣ 2 ^ (8 - mode) := dvd_pow_self 2 (by omega)
        calc s.low % 2 = s.low % 2 ^ (8 - mode) % 2 := (Nat.mod_mod_of_dvd s.low h2).symm
          _ = 0 := by rw [hz]
      rw [if_pos hbit]
      apply ih (mode + 1) _ (by omega) (by omega)
      rw [read_bit_snd_low]
      rw [lor_shiftLeft_mod _ _ _ _ (by omega : 8 - (mode + 1) ≤ 63)]
      obtain ⟨t, ht⟩ := Nat.dvd_of_mod_eq_zero hz
      have hsplit : (8 : Nat) - mode = (8 - (mode + 1)) + 1 := by omega
      rw [Nat.shiftRight_eq_div_pow, ht, hsplit, pow_succ]
      rw [show 2 ^ (8 - (mode + 1)) * 2 * t = 2 ^ (8 - (mode + 1)) * t * 2 ^ 1 by ring]
      rw [Nat.mul_div_cancel _ (by norm_num)]
      exact Nat.mul_mod_right _ _
    · rw [if_neg h8]
      show mode = 8
      omega

/-- The low half of the stream built from bytes whose first byte is zero is
divisible by 256. -/
theorem ofBytes_low_mod_256 (bytes : List Nat) (h : bytes.getD 0 0 = 0) :
    (BitStream.ofBytes bytes).low % 256 = 0 := by
  cases bytes with
  | nil => simp [BitStream.ofBytes, leWord8]
  | cons b tl =>
    have hb : b = 0 := by simpa [List.getD] using h
    show leWord8 ((b :: tl).take 8) % 256 = 0
    rw [List.take_succ_cons]
    simp only [leWord8, hb, Nat.zero_add]
    exact Nat.mul_mod_right _ _

theorem set_zero_keeps_zero (l : List Nat) (i p : Nat) (hp : l[p]? = some 0) :
    (l.set i 0)[p]? = some 0 := by
  rcases eq_or_ne i p with rfl | hne
  · have hlt : i < l.length := by
      by_contra hge
      rw [List.getElem?_eq_none (by omega)] at hp
      exact Option.noConfusion hp
    rw [List.getElem?_set_eq_of_lt _ hlt]
  · rw [List.getElem?_set_ne hne]
    exact hp

theorem write4_length (d : List Nat) (o r g b a : Nat) :
    (write4 d o r g b a).length = d.length := by
  simp [write4]

theorem write4_keeps_zero (d : List Nat) (o p : Nat) (hp : d[p]? = some 0) :
    (write4 d o 0 0 0 0)[p]? = some 0 := by
  unfold write4
  exact set_zero_keeps_zero _ _ _ (set_zero_keeps_zero _ _ _
    (set_zero_keeps_zero _ _ _ (set_zero_keeps_zero _ _ _ hp)))

theorem set_zero_self (l : List Nat) (p : Nat) (hlt : p < l.length) :
    (l.set p 0)[p]? = some 0 := by
  rw [List.getElem?_set_eq_of_lt _ hlt]

theorem write4_zero_writes (d : List Nat) (o c : Nat) (hc : c < 4)
    (hlt : o + c < d.length) : (write4 d o 0 0 0 0)[o + c]? = some 0 := by
  unfold write4
  interval_cases c
  · exact set_zero_keeps_zero _ _ _ (set_zero_keeps_zero _ _ _
      (set_zero_keeps_zero _ _ _ (set_zero_self _ _ (by simpa using hlt))))
  · exact set_zero_keeps_zero _ _ _ (set_zero_keeps_zero _ _ _
      (set_zero_self _ _ (by simpa using hlt)))
  · exact set_zero_keeps_zero _ _ _ (set_zero_self _ _ (by simpa using hlt))
  · exact set_zero_self _ _ (by simpa using hlt)

/-- Any position covered by one of the four byte zero writes of a fold of
write4 calls ends up zero, as does any position that was already zero. -/
theorem foldl_write4_zero (pitch : Nat) :
    ∀ (l : List (Nat × Nat)) (d : List Nat) (p : Nat),
      (d[p]? = some 0 ∨ ∃ ij ∈ l, ∃ c, c < 4 ∧ p = ij.1 * pitch + ij.2 * 4 + c) →
      p < d.length →
      (l.foldl (fun d ij => write4 d (ij.1 * pitch + ij.2 * 4) 0 0 0 0) d)[p]? = some 0 := by
  intro l
  induction l with
  | nil =>
    intro d p hp _
    rcases hp with hz | ⟨ij, hij, _⟩
    · exact hz
    · exact absurd hij (List.not_mem_nil ij)
  | cons ij l ih =>
    intro d p hp hlen
    rw [List.foldl_cons]
    have hlen' : p < (write4 d (ij.1 * pitch + ij.2 * 4) 0 0 0 0).length := by
      rw [write4_length]; exact hlen
    rcases hp with hz | ⟨ij', hij', c, hc, hpc⟩
    · exact ih _ _ (Or.inl (write4_keeps_zero _ _ _ hz)) hlen'
    · rcases List.mem_cons.mp hij' with rfl | htl
      · refine ih _ _ (Or.inl ?_) hlen'
        rw [hpc]
        exact write4_zero_writes _ _ _ hc (by omega)
      · exact ih _ _ (Or.inr ⟨ij', htl, c, hc, hpc⟩) hlen'

/-- Variant of the zero write fold for the byte stores of store_data. -/
theorem foldl_write4_zero_base (base : Nat) :
    ∀ (l : List Nat) (d : List Nat) (p : Nat),
      (d[p]? = some 0 ∨ ∃ x ∈ l, ∃ c, c < 4 ∧ p = base + x * 4 + c) →
      p < d.length →
      (l.foldl (fun d x => write4 d (base + x * 4) 0 0 0 0) d)[p]? = some 0 := by
  intro l
  induction l with
  | nil =>
    intro d p hp _
    rcases hp with hz | ⟨x, hx, _⟩
    · exact hz
    · exact absurd hx (List.not_mem_nil x)
  | cons x l ih =>
    intro d p hp hlen
    rw [List.foldl_cons]
    have hlen' : p < (write4 d (base + x * 4) 0 0 0 0).length := by
      rw [write4_length]; exact hlen
    rcases hp with hz | ⟨x', hx', c, hc, hpc⟩
    · exact ih _ _ (Or.inl (write4_keeps_zero _ _ _ hz)) hlen'
    · rcases List.mem_cons.mp hx' with rfl | htl
      · refine ih _ _ (Or.inl ?_) hlen'
        rw [hpc]
        exact write4_zero_writes _ _ _ hc (by omega)
      · exact ih _ _ (Or.inr ⟨x', htl, c, hc, hpc⟩) hlen'

theorem texel_mem (i j : Nat) (hi : i < 4) (hj : j < 4) : (i, j) ∈ texelList := by
  interval_cases i <;> interval_cases j <;> decide

/-! ### Bit writer and reader correspondence lemmas -/

/-- An or of a value below 2 to the k with a multiple of 2 to the k is
their sum (the bit ranges are disjoint). -/
theorem lor_pow_add (k a b : Nat) (ha : a < 2 ^ k) : a ||| (2 ^ k * b) = a + 2 ^ k * b := by
  apply Nat.eq_of_testBit_eq
  intro j
  rw [Nat.testBit_lor, Nat.testBit_mul_pow_two]
  rw [show a + 2 ^ k * b = 2 ^ k * b + a by ring, Nat.testBit_mul_pow_two_add _ ha]
  by_cases hj : j < k
  · simp [hj, Nat.not_le_of_lt hj]
  · have hfa : a.testBit j = false :=
      Nat.testBit_lt_two_pow
        (lt_of_lt_of_le ha (Nat.pow_le_pow_right (by norm_num) (by omega)))
    simp [hj, hfa, Nat.le_of_not_lt hj]

theorem combined_word_le : ∀ (l : List Nat) (q : Nat),
    2 ^ (32 * q) * l.getD q 0 ≤ combined l := by
  intro l
  induction l with
  | nil => intro q; simp [combined, List.getD]
  | cons w rest ih =>
    intro q
    cases q with
    | zero => simp [combined]
    | succ q =>
      have h := ih q
      calc 2 ^ (32 * (q + 1)) * (w :: rest).getD (q + 1) 0
          = 2 ^ 32 * (2 ^ (32 * q) * rest.getD q 0) := by
            rw [show 32 * (q + 1) = 32 + 32 * q by ring, pow_add]
            simp [List.getD]
            ring
        _ ≤ 2 ^ 32 * combined rest := Nat.mul_le_mul_left _ h
        _ ≤ combined (w :: rest) := by simp [combined]

theorem combined_set_add : ∀ (l : List Nat) (q y : Nat), q < l.length →
    combined (l.set q (l.getD q 0 + y)) = combined l + 2 ^ (32 * q) * y := by
  intro l
  induction l with
  | nil => intro q y h; simp at h
  | cons w rest ih =>
    intro q y hq
    cases q with
    | zero => simp [combined, List.getD]; ring
    | succ q =>
      have hq' : q < rest.length := by simpa using hq
      simp only [List.set_cons_succ, combined, List.getD_cons_succ]
      rw [ih q y hq']
      rw [show 32 * (q + 1) = 32 + 32 * q by ring, pow_add]
      ring

theorem getD_set_ne (l : List Nat) (i j v d : Nat) (h : i ≠ j) :
    (l.set i v).getD j d = l.getD j d := by
  rw [List.getD_eq_getElem?_getD, List.getD_eq_getElem?_getD, List.getElem?_set_ne h]

/-- Packed values fit in the total width. -/
theorem packValues_lt : ∀ (pairs : List (Nat × Nat)),
    (∀ p ∈ pairs, 1 ≤ p.1 ∧ p.1 ≤ 32 ∧ p.2 < 2 ^ p.1) →
    packValues pairs < 2 ^ (pairs.map Prod.fst).sum := by
  intro pairs
  induction pairs with
  | nil => intro _; simp [packValues]
  | cons nv rest ih =>
    intro hvalid
    obtain ⟨n, v⟩ := nv
    have hv : v < 2 ^ n := (hvalid (n, v) (List.mem_cons_self _ _)).2.2
    have hr : packValues rest < 2 ^ (rest.map Prod.fst).sum :=
      ih fun p hp => hvalid p (List.mem_cons_of_mem _ hp)
    simp only [packValues, List.map_cons, List.sum_cons, pow_add]
    calc v + 2 ^ n * packValues rest
        ≤ (2 ^ n - 1) + 2 ^ n * (2 ^ (rest.map Prod.fst).sum - 1) := by
          have h1 : v ≤ 2 ^ n - 1 := by omega
          have h2 : packValues rest ≤ 2 ^ (rest.map Prod.fst).sum - 1 := by omega
          exact Nat.add_le_add h1 (Nat.mul_le_mul_left _ h2)
      _ < 2 ^ n * 2 ^ (rest.map Prod.fst).sum := by
          have hp1 : 1 ≤ (2 : Nat) ^ n := Nat.one_le_two_pow
          have hp2 : 1 ≤ (2 : Nat) ^ (rest.map Prod.fst).sum := Nat.one_le_two_pow
          have hmul : 2 ^ n * ((2 : Nat) ^ (rest.map Prod.fst).sum - 1) =
              2 ^ n * 2 ^ (rest.map Prod.fst).sum - 2 ^ n := Nat.mul_sub_one _ _
          have hle : (2 : Nat) ^ n * 1 ≤ 2 ^ n * 2 ^ (rest.map Prod.fst).sum :=
            Nat.mul_le_mul_left _ hp2
          omega

/-- Central correctness lemma of the bit writer: writing a value of the
given width at position pos into scratch words that are zero at and above
bit pos adds the value at bit offset pos, keeps the words below 2 to the
32 and advances the position by the width. -/
theorem put_bits_spec (d : List Nat) (pos bits v : Nat)
    (hd : d.length = 5) (hw : ∀ w ∈ d, w < 2 ^ 32) (hcb : combined d < 2 ^ pos)
    (hb1 : 1 ≤ bits) (hb2 : bits ≤ 32) (hv : v < 2 ^ bits) (hpb : pos + bits ≤ 160) :
    (put_bits d pos bits v).2 = pos + bits ∧
      (put_bits d pos bits v).1.length = 5 ∧
      (∀ w ∈ (put_bits d pos bits v).1, w < 2 ^ 32) ∧
      combined (put_bits d pos bits v).1 = combined d + 2 ^ pos * v := by
  have hs32 : pos % 32 < 32 := Nat.mod_lt _ (by norm_num)
  have hsplit : 32 * (pos / 32) + pos % 32 = pos := Nat.div_add_mod pos 32
  have hpow_pos : (2 : Nat) ^ pos = 2 ^ (32 * (pos / 32)) * 2 ^ (pos % 32) := by
    rw [← pow_add]; congr 1; omega
  have hq5 : pos / 32 < 5 := by omega
  have hwq : d.getD (pos / 32) 0 < 2 ^ (pos % 32) := by
    have h1 := combined_word_le d (pos / 32)
    by_contra hge
    push_neg at hge
    have h3 := Nat.mul_le_mul_left (2 ^ (32 * (pos / 32))) hge
    omega
  by_cases hsp : pos % 32 + bits > 32
  · -- the value spills into the next word
    have hq4 : pos / 32 + 1 < 5 := by omega
    have hw1 : d.getD (pos / 32 + 1) 0 = 0 := by
      have h1 := combined_word_le d (pos / 32 + 1)
      by_contra hne
      have hge : 1 ≤ d.getD (pos / 32 + 1) 0 := by omega
      have h3 := Nat.mul_le_mul_left (2 ^ (32 * (pos / 32 + 1))) hge
      rw [Nat.mul_one] at h3
      have h4 : (2 : Nat) ^ pos ≤ 2 ^ (32 * (pos / 32 + 1)) :=
        Nat.pow_le_pow_right (by norm_num) (by omega)
      omega
    have hpow32 : (2 : Nat) ^ 32 = 2 ^ (32 - pos % 32) * 2 ^ (pos % 32) := by
      rw [← pow_add]; congr 1; omega
    have hX : (v <<< (pos % 32)) % 2 ^ 32 = v % 2 ^ (32 - pos % 32) * 2 ^ (pos % 32) := by
      rw [Nat.shiftLeft_eq, hpow32]
      exact Nat.mul_mod_mul_right _ _ _
    have hlor1 : d.getD (pos / 32) 0 ||| (v <<< (pos % 32)) % 2 ^ 32 =
        d.getD (pos / 32) 0 + 2 ^ (pos % 32) * (v % 2 ^ (32 - pos % 32)) := by
      rw [hX, Nat.mul_comm (v % 2 ^ (32 - pos % 32))]
      exact lor_pow_add _ _ _ hwq
    have hres : put_bits d pos bits v =
        ((d.set (pos / 32) (d.getD (pos / 32) 0 ||| (v <<< (pos % 32)) % 2 ^ 32)).set
            (pos / 32 + 1)
            ((d.set (pos / 32)
                (d.getD (pos / 32) 0 ||| (v <<< (pos % 32)) % 2 ^ 32)).getD (pos / 32 + 1) 0 |||
              v >>> (32 - pos % 32)),
          pos + bits) := by
      simp only [put_bits, if_pos hsp]
    have hlen1 :
        (d.set (pos / 32) (d.getD (pos / 32) 0 ||| (v <<< (pos % 32)) % 2 ^ 32)).length = 5 := by
      simp [hd]
    have hgd1 :
        (d.set (pos / 32) (d.getD (pos / 32) 0 ||| (v <<< (pos % 32)) % 2 ^ 32)).getD
          (pos / 32 + 1) 0 = 0 := by
      rw [getD_set_ne _ _ _ _ _ (by omega)]
      exact hw1
    have hlor2 :
        (d.set (pos / 32) (d.getD (pos / 32) 0 ||| (v <<< (pos % 32)) % 2 ^ 32)).getD
            (pos / 32 + 1) 0 ||| v >>> (32 - pos % 32) =
          (d.set (pos / 32) (d.getD (pos / 32) 0 ||| (v <<< (pos % 32)) % 2 ^ 32)).getD
              (pos / 32 + 1) 0 + v / 2 ^ (32 - pos % 32) := by
      rw [hgd1, Nat.shiftRight_eq_div_pow]
      simp
    have hmodM : v % 2 ^ (32 - pos % 32) < 2 ^ (32 - pos % 32) :=
      Nat.mod_lt _ (Nat.pos_pow_of_pos _ (by norm_num))
    have hbound1 : d.getD (pos / 32) 0 + 2 ^ (pos % 32) * (v % 2 ^ (32 - pos % 32)) < 2 ^ 32 := by
      have h1 : 2 ^ (pos % 32) * (v % 2 ^ (32 - pos % 32)) + 2 ^ (pos % 32) ≤ 2 ^ 32 := by
        have h2 : 2 ^ (pos % 32) * (v % 2 ^ (32 - pos % 32) + 1) ≤
            2 ^ (pos % 32) * 2 ^ (32 - pos % 32) :=
          Nat.mul_le_mul_left _ (by omega)
        rw [Nat.mul_add, Nat.mul_one] at h2
        rw [← pow_add] at h2
        have hexp : pos % 32 + (32 - pos % 32) = 32 := by omega
        rw [hexp] at h2
        exact h2
      omega
    have hbound2 : v / 2 ^ (32 - pos % 32) < 2 ^ 32 := by
      have h1 : v / 2 ^ (32 - pos % 32) ≤ v := Nat.div_le_self _ _
      have h2 : v < 2 ^ 32 := lt_of_lt_of_le hv (Nat.pow_le_pow_right (by norm_num) hb2)
      omega
    refine ⟨by rw [hres], by rw [hres]; simp [hd], ?_, ?_⟩
    · intro w hwmem
      rw [hres] at hwmem
      rcases List.mem_or_eq_of_mem_set hwmem with hwmem1 | rfl
      · rcases List.mem_or_eq_of_mem_set hwmem1 with hwmem2 | rfl
        · exact hw _ hwmem2
        · rw [hlor1]; exact hbound1
      · rw [hlor2, hgd1, Nat.zero_add]; exact hbound2
    · rw [hres]
      show combined _ = _
      rw [hlor2]
      rw [combined_set_add _ _ _ (by rw [hlen1]; omega)]
      rw [hlor1]
      rw [combined_set_add _ _ _ (by rw [hd]; omega)]
      have hdm := Nat.div_add_mod v (2 ^ (32 - pos % 32))
      have hpow2 : (2 : Nat) ^ (32 * (pos / 32 + 1)) =
          2 ^ (32 * (pos / 32)) * 2 ^ (pos % 32) * 2 ^ (32 - pos % 32) := by
        rw [← pow_add, ← pow_add]; congr 1; omega
      rw [hpow_pos, hpow2]
      rw [show 2 ^ (32 * (pos / 32)) * 2 ^ (pos % 32) * v =
        2 ^ (32 * (pos / 32)) * 2 ^ (pos % 32) *
          (2 ^ (32 - pos % 32) * (v / 2 ^ (32 - pos % 32)) + v % 2 ^ (32 - pos % 32)) by rw [hdm]]
      ring
  · -- the value fits in the current word
    have hvs : v * 2 ^ (pos % 32) < 2 ^ 32 := by
      have h1 : v * 2 ^ (pos % 32) < 2 ^ bits * 2 ^ (pos % 32) :=
        (Nat.mul_lt_mul_right (Nat.pos_pow_of_pos _ (by norm_num))).mpr hv
      have h2 : (2 : Nat) ^ bits * 2 ^ (pos % 32) ≤ 2 ^ 32 := by
        rw [← pow_add]
        exact Nat.pow_le_pow_right (by norm_num) (by omega)
      omega
    have hX : (v <<< (pos % 32)) % 2 ^ 32 = v * 2 ^ (pos % 32) := by
      rw [Nat.shiftLeft_eq]
      exact Nat.mod_eq_of_lt hvs
    have hlor : d.getD (pos / 32) 0 ||| (v <<< (pos % 32)) % 2 ^ 32 =
        d.getD (pos / 32) 0 + 2 ^ (pos % 32) * v := by
      rw [hX, Nat.mul_comm v]
      exact lor_pow_add _ _ _ hwq
    have hres : put_bits d pos bits v =
        (d.set (pos / 32) (d.getD (pos / 32) 0 ||| (v <<< (pos % 32)) % 2 ^ 32), pos + bits) := by
      simp only [put_bits, if_neg hsp]
    have hbound : d.getD (pos / 32) 0 + 2 ^ (pos % 32) * v < 2 ^ 32 := by
      have hv1 : v + 1 ≤ 2 ^ (32 - pos % 32) := by
        have : (2 : Nat) ^ bits ≤ 2 ^ (32 - pos % 32) :=
          Nat.pow_le_pow_right (by norm_num) (by omega)
        omega
      have h1 : 2 ^ (pos % 32) * v + 2 ^ (pos % 32) ≤ 2 ^ 32 := by
        have h2 : 2 ^ (pos % 32) * (v + 1) ≤ 2 ^ (pos % 32) * 2 ^ (32 - pos % 32) :=
          Nat.mul_le_mul_left _ hv1
        rw [Nat.mul_add, Nat.mul_one] at h2
        rw [← pow_add] at h2
        have hexp : pos % 32 + (32 - pos % 32) = 32 := by omega
        rw [hexp] at h2
        exact h2
      omega
    refine ⟨by rw [hres], by rw [hres]; simp [hd], ?_, ?_⟩
    · intro w hwmem
      rw [hres] at hwmem
      rcases List.mem_or_eq_of_mem_set hwmem with hwmem1 | rfl
      · exact hw _ hwmem1
      · rw [hlor]; exact hbound
    · rw [hres]
      show combined _ = _
      rw [hlor, combined_set_add _ _ _ (by rw [hd]; omega), hpow_pos]
      ring

/-- Writing a valid sequence of (width, value) pairs accumulates their
packed value at the starting position. -/
theorem write_fold_spec :
    ∀ (pairs : List (Nat × Nat)) (d : List Nat) (pos : Nat),
      d.length = 5 → (∀ w ∈ d, w < 2 ^ 32) → combined d < 2 ^ pos →
      (∀ p ∈ pairs, 1 ≤ p.1 ∧ p.1 ≤ 32 ∧ p.2 < 2 ^ p.1) →
      pos + (pairs.map Prod.fst).sum ≤ 160 →
      (pairs.foldl (fun st nv => put_bits st.1 st.2 nv.1 nv.2) (d, pos)).2 =
          pos + (pairs.map Prod.fst).sum ∧
        (pairs.foldl (fun st nv => put_bits st.1 st.2 nv.1 nv.2) (d, pos)).1.length = 5 ∧
        (∀ w ∈ (pairs.foldl (fun st nv => put_bits st.1 st.2 nv.1 nv.2) (d, pos)).1,
          w < 2 ^ 32) ∧
        combined (pairs.foldl (fun st nv => put_bits st.1 st.2 nv.1 nv.2) (d, pos)).1 =
          combined d + 2 ^ pos * packValues pairs := by
  intro pairs
  induction pairs with
  | nil =>
    intro d pos hd hw hcb _ _
    exact ⟨by simp, by simpa using hd, by simpa using hw, by simp [packValues]⟩
  | cons nv rest ih =>
    intro d pos hd hw hcb hvalid htot
    obtain ⟨n, v⟩ := nv
    have hn1 : 1 ≤ n := (hvalid (n, v) (List.mem_cons_self _ _)).1
    have hn2 : n ≤ 32 := (hvalid (n, v) (List.mem_cons_self _ _)).2.1
    have hvlt : v < 2 ^ n := (hvalid (n, v) (List.mem_cons_self _ _)).2.2
    have hrest : ∀ p ∈ rest, 1 ≤ p.1 ∧ p.1 ≤ 32 ∧ p.2 < 2 ^ p.1 :=
      fun p hp => hvalid p (List.mem_cons_of_mem _ hp)
    have hsum : (List.map Prod.fst ((n, v) :: rest)).sum = n + (rest.map Prod.fst).sum := by
      simp
    have htot' : pos + (n + (rest.map Prod.fst).sum) ≤ 160 := by
      rw [hsum] at htot
      omega
    have hpb : pos + n ≤ 160 := by omega
    obtain ⟨hp2, hp1len, hp1w, hp1c⟩ := put_bits_spec d pos n v hd hw hcb hn1 hn2 hvlt hpb
    have hcb' : combined (put_bits d pos n v).1 < 2 ^ (pos + n) := by
      rw [hp1c, pow_add]
      have h1 : combined d + 2 ^ pos * v < 2 ^ pos + 2 ^ pos * v := by omega
      have h2 : 2 ^ pos + 2 ^ pos * v ≤ 2 ^ pos * 2 ^ n := by
        have h3 : 1 + v ≤ 2 ^ n := by omega
        have h4 := Nat.mul_le_mul_left (2 ^ pos) h3
        rw [Nat.mul_add, Nat.mul_one] at h4
        exact h4
      omega
    have hfold : ((n, v) :: rest).foldl (fun st nv => put_bits st.1 st.2 nv.1 nv.2) (d, pos) =
        rest.foldl (fun st nv => put_bits st.1 st.2 nv.1 nv.2)
          ((put_bits d pos n v).1, (put_bits d pos n v).2) := by
      rw [List.foldl_cons]
    rw [hfold, hp2]
    obtain ⟨ha, hb, hc, hd'⟩ :=
      ih (put_bits d pos n v).1 (pos + n) hp1len hp1w hcb' hrest (by omega)
    refine ⟨by rw [ha, hsum]; omega, hb, hc, ?_⟩
    rw [hd', hp1c]
    show _ = combined d + 2 ^ pos * packValues ((n, v) :: rest)
    simp only [packValues]
    rw [pow_add]
    ring

/-- Reading n bits from a stream whose halves represent the 128 bit value c
returns the low n bits of c and leaves a stream representing c shifted
right by n. -/
theorem read_bits_stream_spec (c n : Nat) (h1 : 1 ≤ n) (hn : n ≤ 32) :
    BitStream.read_bits ⟨c % 2 ^ 64, c / 2 ^ 64⟩ n =
      (c % 2 ^ n, ⟨(c / 2 ^ n) % 2 ^ 64, c / 2 ^ n / 2 ^ 64⟩) := by
  have hdvd : (2 : Nat) ^ n ∣ 2 ^ 64 := pow_dvd_pow 2 (by omega)
  have ha : c % 2 ^ 64 < 2 ^ 64 := Nat.mod_lt _ (Nat.pos_pow_of_pos _ (by norm_num))
  unfold BitStream.read_bits
  simp only [Prod.mk.injEq, BitStream.mk.injEq]
  refine ⟨?_, ?_, ?_⟩
  · rw [Nat.and_pow_two_sub_one_eq_mod]
    exact Nat.mod_mod_of_dvd c hdvd
  · rw [Nat.and_pow_two_sub_one_eq_mod, Nat.shiftRight_eq_div_pow, Nat.shiftLeft_eq]
    have hlow : c % 2 ^ 64 / 2 ^ n < 2 ^ (64 - n) := by
      rw [Nat.div_lt_iff_lt_mul (Nat.pos_pow_of_pos _ (by norm_num))]
      calc c % 2 ^ 64 < 2 ^ 64 := ha
        _ = 2 ^ (64 - n) * 2 ^ n := by rw [← pow_add]; congr 1; omega
    rw [show c / 2 ^ 64 % 2 ^ n * 2 ^ (64 - n) =
      2 ^ (64 - n) * (c / 2 ^ 64 % 2 ^ n) by ring]
    rw [lor_pow_add _ _ _ hlow]
    have hc_split : c = 2 ^ 64 * (c / 2 ^ 64) + c % 2 ^ 64 := (Nat.div_add_mod c (2 ^ 64)).symm
    have hdivn : c / 2 ^ n = c % 2 ^ 64 / 2 ^ n + 2 ^ (64 - n) * (c / 2 ^ 64) := by
      conv_lhs => rw [hc_split]
      rw [show (2 : Nat) ^ 64 * (c / 2 ^ 64) =
        2 ^ n * (2 ^ (64 - n) * (c / 2 ^ 64)) by rw [← Nat.mul_assoc, ← pow_add]; congr 2; omega]
      rw [Nat.add_comm]
      rw [Nat.add_mul_div_left _ _ (Nat.pos_pow_of_pos _ (by norm_num))]
    rw [hdivn]
    have hh_split : c / 2 ^ 64 = 2 ^ n * (c / 2 ^ 64 / 2 ^ n) + c / 2 ^ 64 % 2 ^ n :=
      (Nat.div_add_mod _ _).symm
    have hEh : 2 ^ (64 - n) * (c / 2 ^ 64) =
        2 ^ 64 * (c / 2 ^ 64 / 2 ^ n) + 2 ^ (64 - n) * (c / 2 ^ 64 % 2 ^ n) := by
      conv_lhs => rw [hh_split]
      rw [Nat.mul_add, ← Nat.mul_assoc, ← pow_add]
      have hexp : 64 - n + n = 64 := by omega
      rw [hexp]
    have hsmall : c % 2 ^ 64 / 2 ^ n + 2 ^ (64 - n) * (c / 2 ^ 64 % 2 ^ n) < 2 ^ 64 := by
      have hm : c / 2 ^ 64 % 2 ^ n < 2 ^ n := Nat.mod_lt _ (Nat.pos_pow_of_pos _ (by norm_num))
      have h5 : 2 ^ (64 - n) * (c / 2 ^ 64 % 2 ^ n) + 2 ^ (64 - n) ≤ 2 ^ 64 := by
        have h6 : 2 ^ (64 - n) * (c / 2 ^ 64 % 2 ^ n + 1) ≤ 2 ^ (64 - n) * 2 ^ n :=
          Nat.mul_le_mul_left _ (by omega)
        rw [Nat.mul_add, Nat.mul_one] at h6
        rw [← pow_add] at h6
        have hexp : 64 - n + n = 64 := by omega
        rw [hexp] at h6
        exact h6
      omega
    rw [hEh]
    rw [show c % 2 ^ 64 / 2 ^ n + (2 ^ 64 * (c / 2 ^ 64 / 2 ^ n) +
        2 ^ (64 - n) * (c / 2 ^ 64 % 2 ^ n)) =
      c % 2 ^ 64 / 2 ^ n + 2 ^ (64 - n) * (c / 2 ^ 64 % 2 ^ n) +
        2 ^ 64 * (c / 2 ^ 64 / 2 ^ n) by ring]
    rw [Nat.add_mul_mod_self_left, Nat.mod_eq_of_lt hsmall]
  · rw [Nat.shiftRight_eq_div_pow]
    rw [Nat.div_div_eq_div_mul, Nat.div_div_eq_div_mul, Nat.mul_comm]

/-- Reading back a packed sequence of valid (width, value) pairs in order
returns the original values. -/
theorem read_values_pack :
    ∀ (pairs : List (Nat × Nat)),
      (∀ p ∈ pairs, 1 ≤ p.1 ∧ p.1 ≤ 32 ∧ p.2 < 2 ^ p.1) →
      read_values ⟨packValues pairs % 2 ^ 64, packValues pairs / 2 ^ 64⟩
        (pairs.map Prod.fst) = pairs.map Prod.snd := by
  intro pairs
  induction pairs with
  | nil => intro _; simp [read_values]
  | cons nv rest ih =>
    intro hvalid
    obtain ⟨n, v⟩ := nv
    have hn1 : 1 ≤ n := (hvalid (n, v) (List.mem_cons_self _ _)).1
    have hn2 : n ≤ 32 := (hvalid (n, v) (List.mem_cons_self _ _)).2.1
    have hvlt : v < 2 ^ n := (hvalid (n, v) (List.mem_cons_self _ _)).2.2
    have hrest : ∀ p ∈ rest, 1 ≤ p.1 ∧ p.1 ≤ 32 ∧ p.2 < 2 ^ p.1 :=
      fun p hp => hvalid p (List.mem_cons_of_mem _ hp)
    have hpack : packValues ((n, v) :: rest) = v + 2 ^ n * packValues rest := rfl
    simp only [List.map_cons, read_values]
    rw [hpack, read_bits_stream_spec _ n hn1 hn2]
    have hmod : (v + 2 ^ n * packValues rest) % 2 ^ n = v := by
      rw [Nat.add_mul_mod_self_left]
      exact Nat.mod_eq_of_lt hvlt
    have hdiv : (v + 2 ^ n * packValues rest) / 2 ^ n = packValues rest := by
      rw [Nat.add_mul_div_left _ _ (Nat.pos_pow_of_pos _ (by norm_num))]
      rw [Nat.div_eq_of_lt hvlt, Nat.zero_add]
    rw [hmod, hdiv]
    rw [List.cons_eq_cons]
    exact ⟨rfl, ih hrest⟩

/-- Byte serialization of the four output words followed by little endian
recomposition into the two stream halves. -/
theorem ofBytes_dataBytes (w0 w1 w2 w3 w4 : Nat) :
    BitStream.ofBytes (dataBytes [w0, w1, w2, w3, w4]) =
      ⟨w0 % 2 ^ 32 + 2 ^ 32 * (w1 % 2 ^ 32), w2 % 2 ^ 32 + 2 ^ 32 * (w3 % 2 ^ 32)⟩ := by
  have hdb : dataBytes [w0, w1, w2, w3, w4] =
      [w0 % 256, w0 >>> 8 % 256, w0 >>> 16 % 256, w0 >>> 24 % 256,
       w1 % 256, w1 >>> 8 % 256, w1 >>> 16 % 256, w1 >>> 24 % 256,
       w2 % 256, w2 >>> 8 % 256, w2 >>> 16 % 256, w2 >>> 24 % 256,
       w3 % 256, w3 >>> 8 % 256, w3 >>> 16 % 256, w3 >>> 24 % 256] := rfl
  rw [hdb]
  show BitStream.mk _ _ = _
  rw [BitStream.mk.injEq]
  constructor
  · show leWord8 _ = _
    simp only [List.take_succ_cons, List.take_zero, leWord8, Nat.shiftRight_eq_div_pow]
    omega
  · show leWord8 _ = _
    simp only [List.drop_succ_cons, List.drop_zero, List.take_succ_cons, List.take_zero,
      leWord8, Nat.shiftRight_eq_div_pow]
    omega

/-! ### Decoder totality lemmas

Every table access of the decoder whose index depends on the input bits is
shown to be in bounds, for every input stream, making the Option valued
decoder total. -/

theorem isSome_bind_of_eq {α β : Type} {a : Option α} {f : α → Option β} (x : α)
    (hx : a = some x) (hf : (f x).isSome = true) : (a.bind f).isSome = true := by
  subst hx
  simpa using hf

theorem read_bits_fst_lt (s : BitStream) (n : Nat) : (s.read_bits n).1 < 2 ^ n := by
  show s.low &&& (2 ^ n - 1) < 2 ^ n
  rw [Nat.and_pow_two_sub_one_eq_mod]
  exact Nat.mod_lt _ (Nat.pos_pow_of_pos _ (by norm_num))

theorem getD_lt_of_all (l : List Nat) (n B : Nat) (hall : ∀ x ∈ l, x < B) (hB : 0 < B) :
    l.getD n 0 < B := by
  rw [List.getD_eq_getElem?_getD]
  rcases h : l[n]? with _ | x
  · simpa using hB
  · have := hall x (List.getElem?_mem h)
    simpa using this

/-- Checked partition table lookup succeeds and yields a subset id of at
most 2 whenever the decoder can reach it. -/
theorem partition_set_of_spec (np partition i j : Nat)
    (hcond : np = 1 ∨ ((np = 2 ∨ np = 3) ∧ partition < 64)) (hi : i < 4) (hj : j < 4) :
    ∃ r, partition_set_of np partition i j = some r ∧ r &&& 3 ≤ 2 := by
  have hdec2 : ∀ partition' < 64, ∀ i' < 4, ∀ j' < 4,
      (partition_set_of 2 partition' i' j').isSome = true ∧
        (partition_set_of 2 partition' i' j').getD 0 &&& 3 ≤ 2 := by decide
  have hdec3 : ∀ partition' < 64, ∀ i' < 4, ∀ j' < 4,
      (partition_set_of 3 partition' i' j').isSome = true ∧
        (partition_set_of 3 partition' i' j').getD 0 &&& 3 ≤ 2 := by decide
  rcases hcond with h1 | ⟨h23, hp⟩
  · subst h1
    refine ⟨if i ||| j = 0 then 128 else 0, rfl, ?_⟩
    by_cases h : i ||| j = 0
    · rw [if_pos h]; decide
    · rw [if_neg h]; decide
  · rcases h23 with h2 | h3
    · subst h2
      obtain ⟨hsome, hval⟩ := hdec2 partition hp i hi j hj
      rcases hopt : partition_set_of 2 partition i j with _ | r
      · rw [hopt] at hsome; simp at hsome
      · rw [hopt] at hval
        exact ⟨r, rfl, by simpa using hval⟩
    · subst h3
      obtain ⟨hsome, hval⟩ := hdec3 partition hp i hi j hj
      rcases hopt : partition_set_of 3 partition i j with _ | r
      · rw [hopt] at hsome; simp at hsome
      · rw [hopt] at hval
        exact ⟨r, rfl, by simpa using hval⟩

theorem interp_channel_isSome (endpoints : List Nat) (pset k : Nat) (w : List Nat)
    (idx : Nat) (hlen : endpoints.length = 24) (hpset : pset ≤ 2) (hk : k < 4)
    (hidx : idx < w.length) : (interp_channel endpoints pset k w idx).isSome = true := by
  unfold interp_channel ep_get epIdx
  have h1 : pset * 2 * 4 + k < 24 := by omega
  have h2 : (pset * 2 + 1) * 4 + k < 24 := by omega
  simp only [List.get?_eq_getElem?]
  rw [List.getElem?_eq_getElem (by omega), Option.some_bind]
  rw [List.getElem?_eq_getElem (by omega), Option.some_bind]
  unfold interpolate
  simp only [List.get?_eq_getElem?]
  rw [List.getElem?_eq_getElem hidx]
  rfl

/-- Index collection succeeds for every input, and all collected indices
are below 2 to the primary index width. -/
theorem pass1_go_spec (mode np partition : Nat)
    (hcond : np = 1 ∨ ((np = 2 ∨ np = 3) ∧ partition < 64)) :
    ∀ (l : List (Nat × Nat)) (indices : List Nat) (s : BitStream),
      (∀ ij ∈ l, ij.1 < 4 ∧ ij.2 < 4) →
      (∀ x ∈ indices, x < 2 ^ index_bits_of mode) →
      ∃ r, pass1_go mode np partition l indices s = some r ∧
        ∀ x ∈ r.1, x < 2 ^ index_bits_of mode := by
  intro l
  induction l with
  | nil =>
    intro indices s _ hbound
    exact ⟨(indices, s), rfl, hbound⟩
  | cons ij rest ih =>
    intro indices s hmem hbound
    have hij : ij.1 < 4 ∧ ij.2 < 4 := hmem ij (List.mem_cons_self _ _)
    obtain ⟨r0, hr0, _⟩ := partition_set_of_spec np partition ij.1 ij.2 hcond hij.1 hij.2
    have hrest : ∀ ij' ∈ rest, ij'.1 < 4 ∧ ij'.2 < 4 :=
      fun ij' h => hmem ij' (List.mem_cons_of_mem _ h)
    unfold pass1_go
    rw [hr0, Option.some_bind]
    apply ih
    · exact hrest
    · intro x hx
      rcases List.mem_or_eq_of_mem_set hx with hold | rfl
      · exact hbound x hold
      · have hlt := read_bits_fst_lt s (if r0 &&& 0x80 ≠ 0 then index_bits_of mode - 1
          else index_bits_of mode)
        have hle : (2 : Nat) ^ (if r0 &&& 0x80 ≠ 0 then index_bits_of mode - 1
            else index_bits_of mode) ≤ 2 ^ index_bits_of mode := by
          apply Nat.pow_le_pow_right (by norm_num)
          by_cases h : r0 &&& 0x80 ≠ 0
          · simp [h]
          · simp [h]
        omega

/-- Interpolation pass succeeds for every input once the endpoint array has
its full 24 entries, the weight table matches the primary index width, all
collected indices are in range, and, for dual index modes, the secondary
weight table matches the secondary index width. -/
theorem pass2_go_isSome (mode np partition rotation isb : Nat)
    (endpoints weights weights2 indices : List Nat) (pitch : Nat)
    (hcond : np = 1 ∨ ((np = 2 ∨ np = 3) ∧ partition < 64))
    (hep : endpoints.length = 24)
    (hw : weights.length = 2 ^ index_bits_of mode)
    (hidx : ∀ x ∈ indices, x < 2 ^ index_bits_of mode)
    (hw2 : index_bits2_of mode = 0 ∨ weights2.length = 2 ^ index_bits2_of mode) :
    ∀ (l : List (Nat × Nat)) (dest : List Nat) (s : BitStream),
      (∀ ij ∈ l, ij.1 < 4 ∧ ij.2 < 4) →
      (pass2_go mode np partition rotation isb endpoints weights weights2 indices pitch
        l dest s).isSome = true := by
  intro l
  induction l with
  | nil => intro dest s _; rfl
  | cons ij rest ih =>
    intro dest s hmem
    have hij := hmem ij (List.mem_cons_self _ _)
    have hrest : ∀ ij' ∈ rest, ij'.1 < 4 ∧ ij'.2 < 4 :=
      fun ij' h => hmem ij' (List.mem_cons_of_mem _ h)
    obtain ⟨r0, hr0, hr0le⟩ := partition_set_of_spec np partition ij.1 ij.2 hcond hij.1 hij.2
    have hidxval : indices.getD (ij.1 * 4 + ij.2) 0 < 2 ^ index_bits_of mode :=
      getD_lt_of_all _ _ _ hidx (Nat.pos_pow_of_pos _ (by norm_num))
    have hic : ∀ (k : Nat), k < 4 → ∀ (w : List Nat) (idx : Nat), idx < w.length →
        ∃ v, interp_channel endpoints (r0 &&& 3) k w idx = some v := by
      intro k hk w idx hi
      exact Option.isSome_iff_exists.mp (interp_channel_isSome endpoints _ k w idx hep hr0le hk hi)
    have hiw : indices.getD (ij.1 * 4 + ij.2) 0 < weights.length := by rw [hw]; exact hidxval
    unfold pass2_go
    rw [hr0, Option.some_bind]
    dsimp only
    by_cases hib2 : index_bits2_of mode = 0
    · rw [if_pos hib2]
      obtain ⟨v0, hv0⟩ := hic 0 (by norm_num) weights _ hiw
      obtain ⟨v1, hv1⟩ := hic 1 (by norm_num) weights _ hiw
      obtain ⟨v2, hv2⟩ := hic 2 (by norm_num) weights _ hiw
      obtain ⟨v3, hv3⟩ := hic 3 (by norm_num) weights _ hiw
      rw [hv0, Option.some_bind, hv1, Option.some_bind, hv2, Option.some_bind, hv3,
        Option.map_some', Option.some_bind]
      exact ih _ _ hrest
    · rw [if_neg hib2]
      have hw2' : weights2.length = 2 ^ index_bits2_of mode := by
        rcases hw2 with h | h
        · exact absurd h hib2
        · exact h
      have hi2 : (s.read_bits (if ij.1 ||| ij.2 = 0 then index_bits2_of mode - 1
          else index_bits2_of mode)).1 < weights2.length := by
        rw [hw2']
        have hlt := read_bits_fst_lt s (if ij.1 ||| ij.2 = 0 then index_bits2_of mode - 1
          else index_bits2_of mode)
        have hle : (2 : Nat) ^ (if ij.1 ||| ij.2 = 0 then index_bits2_of mode - 1
            else index_bits2_of mode) ≤ 2 ^ index_bits2_of mode := by
          apply Nat.pow_le_pow_right (by norm_num)
          by_cases h : ij.1 ||| ij.2 = 0
          · simp [h]
          · simp [h]
        omega
      by_cases hisb : isb = 0
      · rw [if_pos hisb]
        obtain ⟨v0, hv0⟩ := hic 0 (by norm_num) weights _ hiw
        obtain ⟨v1, hv1⟩ := hic 1 (by norm_num) weights _ hiw
        obtain ⟨v2, hv2⟩ := hic 2 (by norm_num) weights _ hiw
        obtain ⟨v3, hv3⟩ := hic 3 (by norm_num) weights2 _ hi2
        rw [hv0, Option.some_bind, hv1, Option.some_bind, hv2, Option.some_bind, hv3,
          Option.map_some', Option.some_bind]
        exact ih _ _ hrest
      · rw [if_neg hisb]
        obtain ⟨v0, hv0⟩ := hic 0 (by norm_num) weights2 _ hi2
        obtain ⟨v1, hv1⟩ := hic 1 (by norm_num) weights2 _ hi2
        obtain ⟨v2, hv2⟩ := hic 2 (by norm_num) weights2 _ hi2
        obtain ⟨v3, hv3⟩ := hic 3 (by norm_num) weights _ hiw
        rw [hv0, Option.some_bind, hv1, Option.some_bind, hv2, Option.some_bind, hv3,
          Option.map_some', Option.some_bind]
        exact ih _ _ hrest

theorem foldl_pair_len {α : Type} (f : (List Nat × BitStream) → α → List Nat × BitStream)
    (hf : ∀ st x, (f st x).1.length = st.1.length) :
    ∀ (l : List α) (st : List Nat × BitStream), (l.foldl f st).1.length = st.1.length := by
  intro l
  induction l with
  | nil => intro st; rfl
  | cons x rest ih =>
    intro st
    rw [List.foldl_cons, ih, hf]

theorem foldl_list_len {α : Type} (f : List Nat → α → List Nat)
    (hf : ∀ d x, (f d x).length = d.length) :
    ∀ (l : List α) (d : List Nat), (l.foldl f d).length = d.length := by
  intro l
  induction l with
  | nil => intro d; rfl
  | cons x rest ih =>
    intro d
    rw [List.foldl_cons, ih, hf]

theorem read_rgb_endpoints_len (cbits ne : Nat) (ep : List Nat) (s : BitStream) :
    (read_rgb_endpoints cbits ne ep s).1.length = ep.length := by
  unfold read_rgb_endpoints
  exact foldl_pair_len _ (fun st x => by simp) _ _

theorem read_alpha_endpoints_len (abits ne : Nat) (ep : List Nat) (s : BitStream) :
    (read_alpha_endpoints abits ne ep s).1.length = ep.length := by
  unfold read_alpha_endpoints
  exact foldl_pair_len _ (fun st x => by simp) _ _

theorem shl1_endpoints_len (ne : Nat) (ep : List Nat) :
    (shl1_endpoints ne ep).length = ep.length := by
  unfold shl1_endpoints
  exact foldl_list_len _ (fun d x => by simp) _ _

theorem insert_shared_pbits_len (ep : List Nat) (s : BitStream) :
    (insert_shared_pbits ep s).1.length = ep.length := by
  unfold insert_shared_pbits
  dsimp only
  exact foldl_list_len _ (fun d x => by simp) _ _

theorem insert_unique_pbits_len (ne : Nat) (ep : List Nat) (s : BitStream) :
    (insert_unique_pbits ne ep s).1.length = ep.length := by
  unfold insert_unique_pbits
  apply foldl_pair_len
  intro st x
  dsimp only
  exact foldl_list_len _ (fun d k => by simp) _ _

theorem adjust_precision_len (ne cb ab : Nat) (ep : List Nat) :
    (adjust_precision ne cb ab ep).length = ep.length := by
  unfold adjust_precision
  apply foldl_list_len
  intro d i
  dsimp only
  rw [List.length_set]
  exact foldl_list_len _ (fun d' k => by simp) _ _

theorem force_alpha_255_len (ne : Nat) (ep : List Nat) :
    (force_alpha_255 ne ep).length = ep.length := by
  unfold force_alpha_255
  exact foldl_list_len _ (fun d j => by simp) _ _

/-- The assembled endpoint array always has its full 24 entries. -/
theorem decode_endpoints_len (mode ne cbits abits : Nat) (s : BitStream) :
    (decode_endpoints mode ne cbits abits s).1.length = 24 := by
  unfold decode_endpoints
  dsimp only
  split
  · rw [force_alpha_255_len, adjust_precision_len]
    split
    · split
      · rw [insert_shared_pbits_len, shl1_endpoints_len]
        split
        · rw [read_alpha_endpoints_len, read_rgb_endpoints_len]; simp
        · rw [read_rgb_endpoints_len]; simp
      · split
        · rw [insert_unique_pbits_len, shl1_endpoints_len]
          split
          · rw [read_alpha_endpoints_len, read_rgb_endpoints_len]; simp
          · rw [read_rgb_endpoints_len]; simp
        · rw [shl1_endpoints_len]
          split
          · rw [read_alpha_endpoints_len, read_rgb_endpoints_len]; simp
          · rw [read_rgb_endpoints_len]; simp
    · split
      · rw [read_alpha_endpoints_len, read_rgb_endpoints_len]; simp
      · rw [read_rgb_endpoints_len]; simp
  · rw [adjust_precision_len]
    split
    · split
      · rw [insert_shared_pbits_len, shl1_endpoints_len]
        split
        · rw [read_alpha_endpoints_len, read_rgb_endpoints_len]; simp
        · rw [read_rgb_endpoints_len]; simp
      · split
        · rw [insert_unique_pbits_len, shl1_endpoints_len]
          split
          · rw [read_alpha_endpoints_len, read_rgb_endpoints_len]; simp
          · rw [read_rgb_endpoints_len]; simp
        · rw [shl1_endpoints_len]
          split
          · rw [read_alpha_endpoints_len, read_rgb_endpoints_len]; simp
          · rw [read_rgb_endpoints_len]; simp
    · split
      · rw [read_alpha_endpoints_len, read_rgb_endpoints_len]; simp
      · rw [read_rgb_endpoints_len]; simp

/-- Header reads always give a reachable partition count and an in-range
partition id. -/
theorem decode_header_spec (mode : Nat) (s : BitStream) :
    (decode_header mode s).1.1 = 1 ∨
      (((decode_header mode s).1.1 = 2 ∨ (decode_header mode s).1.1 = 3) ∧
        (decode_header mode s).1.2 < 64) := by
  unfold decode_header
  by_cases h1 : mode = 0 ∨ mode = 1 ∨ mode = 2 ∨ mode = 3 ∨ mode = 7
  · rw [if_pos h1]
    dsimp only
    right
    refine ⟨?_, ?_⟩
    · by_cases h2 : mode = 0 ∨ mode = 2
      · rw [if_pos h2]; right; rfl
      · rw [if_neg h2]; left; rfl
    · have hlt := read_bits_fst_lt s (if mode = 0 then 4 else 6)
      have hle : (2 : Nat) ^ (if mode = 0 then 4 else 6) ≤ 64 := by
        by_cases h0 : mode = 0
        · rw [if_pos h0]; norm_num
        · rw [if_neg h0]; norm_num
      omega
  · rw [if_neg h1]
    left
    rfl

theorem weights_of_len (mode : Nat) (hm : mode < 8) :
    (weights_of mode).length = 2 ^ index_bits_of mode := by
  interval_cases mode <;> decide

theorem weights2_of_len (mode : Nat) (hm : mode < 8) :
    index_bits2_of mode = 0 ∨ (weights2_of mode).length = 2 ^ index_bits2_of mode := by
  interval_cases mode <;> decide

/-- The decoder body is total for every valid mode and every input. -/
theorem decode_with_mode_isSome (mode : Nat) (hm : mode < 8) (s : BitStream)
    (dest : List Nat) (pitch : Nat) :
    (decode_with_mode mode s dest pitch).isSome = true := by
  unfold decode_with_mode
  dsimp only
  have hcond := decode_header_spec mode s
  have htex : ∀ ij ∈ texelList, ij.1 < 4 ∧ ij.2 < 4 := by decide
  have hinit : ∀ x ∈ List.replicate 16 0, x < 2 ^ index_bits_of mode := by
    intro x hx
    rw [List.eq_of_mem_replicate hx]
    exact Nat.pos_pow_of_pos _ (by norm_num)
  obtain ⟨r, hr, hbound⟩ :=
    pass1_go_spec mode _ _ hcond texelList (List.replicate 16 0) _ htex hinit
  exact isSome_bind_of_eq r hr
    (pass2_go_isSome mode _ _ _ _ _ _ _ _ pitch hcond
      (decode_endpoints_len mode _ _ _ _) (weights_of_len mode hm) hbound
      (weights2_of_len mode hm) texelList dest _ htex)

/-- Total read of one texel entry of the PARTITION_SETS table: group g is 0
for the 2 subset table and 1 for the 3 subset table, and texel k of a block
is row k / 4, column k mod 4.  On the in-range domain this agrees with the
checked lookup partition_set_of used by the decoder. -/
def partition_entry (g p k : Nat) : Nat :=
  (((PARTITION_SETS.getD g []).getD p []).getD (k / 4) []).getD (k % 4) 0

/-- C2: decoding the 16 byte block 40 AF F6 0B FD 2E FF FF 11 71 10 A1 21
F2 33 73 with destination pitch 8 produces the bytes BD BF BF FF BD BD BD
FF as the first row (first two texels) of the output. -/
theorem decode_fixture_block_first_row :
    (BC7Spec.decode_block_bc7
        (BC7Spec.BitStream.ofBytes
          [0x40, 0xAF, 0xF6, 0x0B, 0xFD, 0x2E, 0xFF, 0xFF,
           0x11, 0x71, 0x10, 0xA1, 0x21, 0xF2, 0x33, 0x73])
        (List.replicate 64 0) 8).map (fun l => l.take 8) =
      some [0xBD, 0xBF, 0xBF, 0xFF, 0xBD, 0xBD, 0xBD, 0xFF] := by
  decide

/-- C4 counterexample: the claim says compress fails whenever the blocks
buffer length is not exactly blocks_byte_size, and that decompress fails
whenever width or height is not a multiple of 4.  But the compress
preconditions accept a 32 byte buffer for a single 16 byte block, and the
decompress preconditions accept width = height = 2 with exactly sized
buffers without any multiple-of-4 check. -/
theorem bc7_preconditions_claim_counterexample :
    BC7Spec.compress_preconditions_ok 4 4 32 = true ∧
      BC7Spec.blocks_byte_size 4 4 = 16 ∧ (32 : Nat) ≠ 16 ∧
      BC7Spec.decompress_preconditions_ok 2 2 16 16 = true ∧ (2 : Nat) % 4 ≠ 0 := by
  decide

/-- C4 (amended): compress fails with a precondition error exactly when
width or height is not a multiple of 4 or the blocks buffer is smaller
than ceil(w/4) * ceil(h/4) * 16 bytes (larger buffers are accepted), and
decompress fails with a precondition error exactly when the blocks buffer
length differs from ceil(w/4) * ceil(h/4) * 16 or the pixel buffer length
differs from w * h * 4 (it performs no multiple-of-4 check). -/
theorem bc7_preconditions_characterization :
    ∀ w h bl rl : Nat,
      (BC7Spec.compress_preconditions_ok w h bl = true ↔
        (h % 4 = 0 ∧ w % 4 = 0 ∧ BC7Spec.blocks_byte_size w h ≤ bl)) ∧
      (BC7Spec.decompress_preconditions_ok w h bl rl = true ↔
        (bl = BC7Spec.blocks_byte_size w h ∧ rl = w * h * 4)) := by
  intro w h bl rl
  constructor
  · simp [BC7Spec.compress_preconditions_ok, Bool.and_eq_true, beq_iff_eq,
      decide_eq_true_iff, and_assoc]
  · simp [BC7Spec.decompress_preconditions_ok, Bool.and_eq_true, beq_iff_eq]

/-- C7 counterexample: the claim says that when the two candidate indices
tie on per texel squared error, the lower index value is chosen.  At
bits = 2 with dequantized endpoints 0 and 255 and texel value 42 the two
candidates are indices 0 and 1 with reconstructions 0 and 84, both at
squared error 1764 (all quantities exactly representable in f32), yet the
encoder keeps the higher index 1, not the lower index 0. -/
theorem channel_quant_tie_counterexample :
    (BC7Spec.channel_opt_quant_step 2 0 255 42).err0 =
        (BC7Spec.channel_opt_quant_step 2 0 255 42).err1 ∧
      (BC7Spec.channel_opt_quant_step 2 0 255 42).q1_clamped = 1 ∧
      (BC7Spec.channel_opt_quant_step 2 0 255 42).best_q = 1 ∧
      (BC7Spec.channel_opt_quant_step 2 0 255 42).best_q ≠
        (BC7Spec.channel_opt_quant_step 2 0 255 42).q1_clamped - 1 := by
  have hstep : BC7Spec.channel_opt_quant_step 2 0 255 42 =
      { q1_clamped := 1, err0 := 1764, err1 := 1764, best_q := 1, best_err := 1764 } := by
    have h0 : BC7Spec.f32_as_i32 (0 : ℚ) = 0 := by
      rw [BC7Spec.f32_as_i32_eq_floor 0 (by norm_num) (by norm_num)]
      norm_num
    have h255 : BC7Spec.f32_as_i32 (255 : ℚ) = 255 := by
      rw [BC7Spec.f32_as_i32_eq_floor 255 (by norm_num) (by norm_num)]
      norm_num
    have hq : ((42 : ℚ) - 0) / (255 - 0 + 1 / 1000) * (((2 ^ 2 : Int) : ℚ)) + 1 / 2 =
        591001 / 510002 := by
      norm_num
    have hproj : BC7Spec.f32_as_i32
        (((42 : ℚ) - 0) / (255 - 0 + 1 / 1000) * (((2 ^ 2 : Int) : ℚ)) + 1 / 2) = 1 := by
      rw [hq, BC7Spec.f32_as_i32_eq_floor _ (by norm_num) (by norm_num)]
      rw [Int.floor_eq_iff]
      constructor <;> norm_num
    have ht32 : Int.tdiv 32 64 = 0 := by decide
    have ht5387 : Int.tdiv 5387 64 = 84 := by decide
    simp only [BC7Spec.channel_opt_quant_step, hproj, h0, h255]
    norm_num [BC7Spec.get_unquant_value, ht32, ht5387]
  rw [hstep]
  refine ⟨rfl, rfl, rfl, by decide⟩

/-- C7 (amended): during index assignment, both in block_quant for the
vector channels and in channel_opt_quant for the scalar channel, every
texel is assigned whichever of the two candidate indices q1_clamped - 1
and q1_clamped has the smaller per texel squared reconstruction error, and
when the two candidates tie on error the HIGHER candidate q1_clamped is
chosen (not the lower one). -/
theorem quant_step_picks_nearer_index :
    ∀ (bits channels : Nat) (ep0 ep1 v : ℚ) (epA epB bv : List ℚ),
      ((BC7Spec.channel_opt_quant_step bits ep0 ep1 v).best_err ≤
          (BC7Spec.channel_opt_quant_step bits ep0 ep1 v).err0 ∧
        (BC7Spec.channel_opt_quant_step bits ep0 ep1 v).best_err ≤
          (BC7Spec.channel_opt_quant_step bits ep0 ep1 v).err1 ∧
        ((BC7Spec.channel_opt_quant_step bits ep0 ep1 v).best_q =
            (BC7Spec.channel_opt_quant_step bits ep0 ep1 v).q1_clamped - 1 ∧
            (BC7Spec.channel_opt_quant_step bits ep0 ep1 v).best_err =
              (BC7Spec.channel_opt_quant_step bits ep0 ep1 v).err0 ∨
          (BC7Spec.channel_opt_quant_step bits ep0 ep1 v).best_q =
              (BC7Spec.channel_opt_quant_step bits ep0 ep1 v).q1_clamped ∧
            (BC7Spec.channel_opt_quant_step bits ep0 ep1 v).best_err =
              (BC7Spec.channel_opt_quant_step bits ep0 ep1 v).err1) ∧
        ((BC7Spec.channel_opt_quant_step bits ep0 ep1 v).err0 =
            (BC7Spec.channel_opt_quant_step bits ep0 ep1 v).err1 →
          (BC7Spec.channel_opt_quant_step bits ep0 ep1 v).best_q =
            (BC7Spec.channel_opt_quant_step bits ep0 ep1 v).q1_clamped)) ∧
      ((BC7Spec.block_quant_step bits channels epA epB bv).best_err ≤
          (BC7Spec.block_quant_step bits channels epA epB bv).err0 ∧
        (BC7Spec.block_quant_step bits channels epA epB bv).best_err ≤
          (BC7Spec.block_quant_step bits channels epA epB bv).err1 ∧
        ((BC7Spec.block_quant_step bits channels epA epB bv).best_q =
            (BC7Spec.block_quant_step bits channels epA epB bv).q1_clamped - 1 ∧
            (BC7Spec.block_quant_step bits channels epA epB bv).best_err =
              (BC7Spec.block_quant_step bits channels epA epB bv).err0 ∨
          (BC7Spec.block_quant_step bits channels epA epB bv).best_q =
              (BC7Spec.block_quant_step bits channels epA epB bv).q1_clamped ∧
            (BC7Spec.block_quant_step bits channels epA epB bv).best_err =
              (BC7Spec.block_quant_step bits channels epA epB bv).err1) ∧
        ((BC7Spec.block_quant_step bits channels epA epB bv).err0 =
            (BC7Spec.block_quant_step bits channels epA epB bv).err1 →
          (BC7Spec.block_quant_step bits channels epA epB bv).best_q =
            (BC7Spec.block_quant_step bits channels epA epB bv).q1_clamped)) := by
  have key : ∀ (q1c : Int) (e0 e1 : ℚ),
      (if e0 < e1 then e0 else e1) ≤ e0 ∧ (if e0 < e1 then e0 else e1) ≤ e1 ∧
        ((if e0 < e1 then q1c - 1 else q1c) = q1c - 1 ∧ (if e0 < e1 then e0 else e1) = e0 ∨
          (if e0 < e1 then q1c - 1 else q1c) = q1c ∧ (if e0 < e1 then e0 else e1) = e1) ∧
        (e0 = e1 → (if e0 < e1 then q1c - 1 else q1c) = q1c) := by
    intro q1c e0 e1
    by_cases h : e0 < e1
    · rw [if_pos h, if_pos h]
      exact ⟨le_refl _, le_of_lt h, Or.inl ⟨rfl, rfl⟩, fun he => absurd he (ne_of_lt h)⟩
    · rw [if_neg h, if_neg h]
      exact ⟨le_of_not_lt h, le_refl _, Or.inr ⟨rfl, rfl⟩, fun _ => rfl⟩
  intro bits channels ep0 ep1 v epA epB bv
  exact ⟨key _ _ _, key _ _ _⟩

theorem pattern_agree_2subset :
    ∀ p, p < 64 → ∀ k, k < 16 →
      (BC7Spec.get_pattern p >>> (2 * k)) &&& 3 = BC7Spec.partition_entry 0 p k &&& 3 := by
  decide

theorem pattern_agree_3subset :
    ∀ p, p < 64 → ∀ k, k < 16 →
      (BC7Spec.get_pattern (p + 64) >>> (2 * k)) &&& 3 =
        BC7Spec.partition_entry 1 p k &&& 3 := by
  decide

theorem skips_agree_2subset :
    ∀ p, p < 64 → ∀ k, k < 16 →
      ((BC7Spec.partition_entry 0 p k &&& 128 ≠ 0) ↔
        (k = (BC7Spec.get_skips p).getD 0 0 ∨ k = (BC7Spec.get_skips p).getD 1 0)) := by
  decide

theorem skips_agree_3subset :
    ∀ p, p < 64 → ∀ k, k < 16 →
      ((BC7Spec.partition_entry 1 p k &&& 128 ≠ 0) ↔
        (k = (BC7Spec.get_skips (p + 64)).getD 0 0 ∨
          k = (BC7Spec.get_skips (p + 64)).getD 1 0 ∨
          k = (BC7Spec.get_skips (p + 64)).getD 2 0)) := by
  decide

theorem skips_subset_2subset :
    ∀ p, p < 64 → ∀ j, j < 2 →
      BC7Spec.partition_entry 0 p ((BC7Spec.get_skips p).getD j 0) &&& 3 = j := by
  decide

theorem skips_subset_3subset :
    ∀ p, p < 64 → ∀ j, j < 3 →
      BC7Spec.partition_entry 1 p ((BC7Spec.get_skips (p + 64)).getD j 0) &&& 3 = j := by
  decide

/-- C8: the encoder's and decoder's partition tables agree.  For every
2 subset partition id p (pattern word at table index p) and every 3 subset
partition id p (pattern word at table index p + 64, matching the part_id +
64 used by the encoder for 3 subset modes) and every texel k, the 2 bit
subset id of the packed pattern word equals the subset id of the decoder's
PARTITION_SETS entry, and the fixup texels returned by get_skips are
exactly the texels flagged with the high bit in PARTITION_SETS, each lying
in the subset matching its position in the skip list. -/
theorem partition_tables_agree :
    ∀ p, p < 64 → ∀ k, k < 16 →
      ((BC7Spec.get_pattern p >>> (2 * k)) &&& 3 = BC7Spec.partition_entry 0 p k &&& 3) ∧
      ((BC7Spec.get_pattern (p + 64) >>> (2 * k)) &&& 3 =
        BC7Spec.partition_entry 1 p k &&& 3) ∧
      ((BC7Spec.partition_entry 0 p k &&& 128 ≠ 0) ↔
        (k = (BC7Spec.get_skips p).getD 0 0 ∨ k = (BC7Spec.get_skips p).getD 1 0)) ∧
      ((BC7Spec.partition_entry 1 p k &&& 128 ≠ 0) ↔
        (k = (BC7Spec.get_skips (p + 64)).getD 0 0 ∨
          k = (BC7Spec.get_skips (p + 64)).getD 1 0 ∨
          k = (BC7Spec.get_skips (p + 64)).getD 2 0)) ∧
      (∀ j, j < 2 →
        BC7Spec.partition_entry 0 p ((BC7Spec.get_skips p).getD j 0) &&& 3 = j) ∧
      (∀ j, j < 3 →
        BC7Spec.partition_entry 1 p ((BC7Spec.get_skips (p + 64)).getD j 0) &&& 3 = j) := by
  intro p hp k hk
  exact ⟨pattern_agree_2subset p hp k hk, pattern_agree_3subset p hp k hk,
    skips_agree_2subset p hp k hk, skips_agree_3subset p hp k hk,
    skips_subset_2subset p hp, skips_subset_3subset p hp⟩

/-- Witness instantiating the partition table agreement at partition id 17
and texel 1 (a non-trivial fixup of the 2 subset table). -/
theorem partition_tables_agree_witness :
    (17 : Nat) < 64 ∧ (1 : Nat) < 16 ∧
      ((BC7Spec.partition_entry 0 17 1 &&& 128 ≠ 0) ↔
        (1 = (BC7Spec.get_skips 17).getD 0 0 ∨ 1 = (BC7Spec.get_skips 17).getD 1 0)) := by
  refine ⟨by decide, by decide, ?_⟩
  exact (partition_tables_agree 17 (by decide) 1 (by decide)).2.2.1

/-- C3: for every 16 byte input whose low byte has no set bit (so the mode
scan finds no terminator in its first 8 probes), the decoder returns
normally with the fallback that writes four zero bytes (transparent black)
for all 16 texels, regardless of the remaining 120 bits: the result is the
clear_block fallback, and every byte it wrote is zero. -/
theorem decode_no_mode_transparent_black :
    ∀ (bytes dest : List Nat) (pitch : Nat),
      bytes.getD 0 0 = 0 →
      BC7Spec.decode_block_bc7 (BC7Spec.BitStream.ofBytes bytes) dest pitch =
          some (BC7Spec.clear_block dest pitch) ∧
        ∀ i, i < 4 → ∀ j, j < 4 → ∀ c, c < 4 →
          i * pitch + j * 4 + c < dest.length →
          (BC7Spec.clear_block dest pitch)[i * pitch + j * 4 + c]? = some 0 := by
  intro bytes dest pitch h0
  have hmode : (BC7Spec.find_mode (BC7Spec.BitStream.ofBytes bytes)).1 = 8 := by
    apply BC7Spec.find_mode_go_all_zero 9 0 _ (by omega) (by omega)
    simpa using BC7Spec.ofBytes_low_mod_256 bytes h0
  constructor
  · unfold BC7Spec.decode_block_bc7
    rw [if_pos (by omega : 8 ≤ (BC7Spec.find_mode (BC7Spec.BitStream.ofBytes bytes)).1)]
  · intro i hi j hj c hc hlen
    unfold BC7Spec.clear_block
    exact BC7Spec.foldl_write4_zero pitch BC7Spec.texelList dest _
      (Or.inr ⟨(i, j), BC7Spec.texel_mem i j hi hj, c, hc, rfl⟩) hlen

/-- Witness for the transparent black fallback at a concrete input: the
all zero 16 byte block with a 64 byte destination at pitch 16 decodes to
the fallback and its first byte is zero. -/
theorem decode_no_mode_transparent_black_witness :
    ([ (0 : Nat), 1, 2, 3, 4, 5, 6, 7, 8, 9, 10, 11, 12, 13, 14, 15].getD 0 0 = 0) ∧
      BC7Spec.decode_block_bc7
          (BC7Spec.BitStream.ofBytes [0, 1, 2, 3, 4, 5, 6, 7, 8, 9, 10, 11, 12, 13, 14, 15])
          (List.replicate 64 7) 16 =
        some (BC7Spec.clear_block (List.replicate 64 7) 16) ∧
      (BC7Spec.clear_block (List.replicate 64 7) 16)[0]? = some 0 := by
  refine ⟨by decide, ?_, ?_⟩
  · exact (decode_no_mode_transparent_black
      [0, 1, 2, 3, 4, 5, 6, 7, 8, 9, 10, 11, 12, 13, 14, 15]
      (List.replicate 64 7) 16 (by decide)).1
  · have := (decode_no_mode_transparent_black
      [0, 1, 2, 3, 4, 5, 6, 7, 8, 9, 10, 11, 12, 13, 14, 15]
      (List.replicate 64 7) 16 (by decide)).2 0 (by decide) 0 (by decide) 0 (by decide)
      (by simp)
    simpa using this

/-- C5: for every sequence of (width, value) pairs with widths between 1
and 32, values below 2 to their width, and total width at most 128 bits,
writing the values in order with put_bits into the five zeroed scratch
words starting at position 0 and then reading them back in the same order
and widths with BitStream read_bits over the resulting 16 bytes returns
every original value exactly. -/
theorem bc7_bit_writer_reader_inverse :
    ∀ pairs : List (Nat × Nat),
      (∀ p ∈ pairs, 1 ≤ p.1 ∧ p.1 ≤ 32 ∧ p.2 < 2 ^ p.1) →
      (pairs.map Prod.fst).sum ≤ 128 →
      BC7Spec.read_values
          (BC7Spec.BitStream.ofBytes (BC7Spec.dataBytes (BC7Spec.write_values pairs).1))
          (pairs.map Prod.fst) =
        pairs.map Prod.snd := by
  intro pairs hvalid htotal
  have hwv : BC7Spec.write_values pairs =
      pairs.foldl (fun st nv => BC7Spec.put_bits st.1 st.2 nv.1 nv.2) ([0, 0, 0, 0, 0], 0) :=
    rfl
  obtain ⟨hpos, hlen, hwords, hcomb⟩ :=
    BC7Spec.write_fold_spec pairs [0, 0, 0, 0, 0] 0 rfl (by decide)
      (by norm_num [BC7Spec.combined]) hvalid (by omega)
  rw [hwv]
  have hcd : BC7Spec.combined
      (pairs.foldl (fun st nv => BC7Spec.put_bits st.1 st.2 nv.1 nv.2) ([0, 0, 0, 0, 0], 0)).1 =
      BC7Spec.packValues pairs := by
    rw [hcomb]
    norm_num [BC7Spec.combined]
  have hplt : BC7Spec.packValues pairs < 2 ^ 128 :=
    lt_of_lt_of_le (BC7Spec.packValues_lt pairs hvalid)
      (Nat.pow_le_pow_right (by norm_num) htotal)
  rcases hdl :
      (pairs.foldl (fun st nv => BC7Spec.put_bits st.1 st.2 nv.1 nv.2) ([0, 0, 0, 0, 0], 0)).1
    with _ | ⟨a, _ | ⟨b, _ | ⟨c0, _ | ⟨e, _ | ⟨f, _ | ⟨g, t⟩⟩⟩⟩⟩⟩ <;>
    rw [hdl] at hlen hwords hcd <;> simp at hlen
  have ha32 : a < 2 ^ 32 := hwords a (by simp)
  have hb32 : b < 2 ^ 32 := hwords b (by simp)
  have hc32 : c0 < 2 ^ 32 := hwords c0 (by simp)
  have he32 : e < 2 ^ 32 := hwords e (by simp)
  have hce : BC7Spec.combined [a, b, c0, e, f] =
      a + 2 ^ 32 * b + 2 ^ 64 * c0 + 2 ^ 96 * e + 2 ^ 128 * f := by
    simp [BC7Spec.combined]
    ring
  have hf0 : f = 0 := by
    rw [hce] at hcd
    omega
  have hofb : BC7Spec.BitStream.ofBytes (BC7Spec.dataBytes [a, b, c0, e, f]) =
      ⟨BC7Spec.packValues pairs % 2 ^ 64, BC7Spec.packValues pairs / 2 ^ 64⟩ := by
    rw [BC7Spec.ofBytes_dataBytes]
    rw [BC7Spec.BitStream.mk.injEq]
    rw [hce, hf0] at hcd
    constructor <;> omega
  rw [hdl, hofb]
  exact BC7Spec.read_values_pack pairs hvalid

/-- Witness for the bit writer and reader inverse law at a concrete
sequence of four writes covering widths 5, 32, 1 and 7. -/
theorem bc7_bit_writer_reader_inverse_witness :
    (∀ p ∈ ([(5, 20), (32, 3735928559), (1, 1), (7, 100)] : List (Nat × Nat)),
        1 ≤ p.1 ∧ p.1 ≤ 32 ∧ p.2 < 2 ^ p.1) ∧
      (([(5, 20), (32, 3735928559), (1, 1), (7, 100)] : List (Nat × Nat)).map
        Prod.fst).sum ≤ 128 ∧
      BC7Spec.read_values
          (BC7Spec.BitStream.ofBytes (BC7Spec.dataBytes
            (BC7Spec.write_values [(5, 20), (32, 3735928559), (1, 1), (7, 100)]).1))
          (([(5, 20), (32, 3735928559), (1, 1), (7, 100)] : List (Nat × Nat)).map Prod.fst) =
        ([(5, 20), (32, 3735928559), (1, 1), (7, 100)] : List (Nat × Nat)).map Prod.snd := by
  refine ⟨by decide, by decide, ?_⟩
  exact bc7_bit_writer_reader_inverse _ (by decide) (by decide)

/-- C9: for every 16 byte input (any pair of 64 bit stream halves, so any
bit pattern at all) and every destination, decode_block_bc7 is total: it
terminates (it is a structurally recursive function) and every internal
table access — the partition id into the 64 entry partition tables, the
index values into the 4, 8 or 16 entry weight tables, the subset ids into
the endpoint array — stays in bounds, so the checked-lookup decoder never
returns none. -/
theorem decode_block_bc7_total :
    ∀ (low high pitch : Nat) (dest : List Nat),
      (BC7Spec.decode_block_bc7 ⟨low, high⟩ dest pitch).isSome = true := by
  intro low high pitch dest
  unfold BC7Spec.decode_block_bc7
  dsimp only
  by_cases h8 : 8 ≤ (BC7Spec.find_mode ⟨low, high⟩).1
  · rw [if_pos h8]
    rfl
  · rw [if_neg h8]
    exact BC7Spec.decode_with_mode_isSome _ (by omega) _ _ _

theorem zeros5_getD (i : Nat) : ([0, 0, 0, 0, 0] : List Nat).getD i 0 = 0 := by
  rcases i with _ | _ | _ | _ | _ | i <;> rfl

/-- With all zero output words, store_data is a fold of zero byte writes at
the block's 16 byte range. -/
theorem store_data_zero_eq (blocks_buffer : List Nat) (block_width xx yy : Nat) :
    store_data [0, 0, 0, 0, 0] blocks_buffer block_width xx yy =
      (List.range 4).foldl
        (fun buf index => write4 buf ((yy * block_width + xx) * 16 + index * 4) 0 0 0 0)
        blocks_buffer := by
  unfold store_data write4
  simp only [zeros5_getD, Nat.zero_shiftRight, Nat.zero_mod]

/-- C10: for any settings bundle under which no mode emits a candidate —
all four mode_selection flags zero, or only the second flag set with every
fast skip threshold zero — the per block compressor leaves its output
words at their initial all zero state (for every choice of the mode search
bodies, which are never reached), store_data therefore writes exactly 16
zero bytes for the block, and such an all zero block decodes to the all
transparent black 4x4 tile. -/
theorem no_candidate_modes_store_zero_block :
    ∀ (settings : BC7Spec.BC7Settings)
      (enc02 enc13 enc7 enc45 enc6 : List Nat → List Nat)
      (buffer dest : List Nat) (bw xx yy pitch : Nat),
      settings.mode_selection.getD 0 0 = 0 →
      settings.mode_selection.getD 2 0 = 0 →
      settings.mode_selection.getD 3 0 = 0 →
      (settings.mode_selection.getD 1 0 = 0 ∨
        (settings.fast_skip_threshold_mode1 = 0 ∧ settings.fast_skip_threshold_mode3 = 0 ∧
          settings.fast_skip_threshold_mode7 = 0)) →
      BC7Spec.compress_block_bc7_core settings enc02 enc13 enc7 enc45 enc6 [0, 0, 0, 0, 0] =
          [0, 0, 0, 0, 0] ∧
        (∀ c, c < 16 → (yy * bw + xx) * 16 + c < buffer.length →
          (BC7Spec.store_data [0, 0, 0, 0, 0] buffer bw xx yy)[(yy * bw + xx) * 16 + c]? =
            some 0) ∧
        BC7Spec.decode_block_bc7
            (BC7Spec.BitStream.ofBytes (BC7Spec.dataBytes [0, 0, 0, 0, 0])) dest pitch =
          some (BC7Spec.clear_block dest pitch) := by
  intro settings enc02 enc13 enc7 enc45 enc6 buffer dest bw xx yy pitch h0 h2 h3 h1
  refine ⟨?_, ?_, ?_⟩
  · unfold BC7Spec.compress_block_bc7_core
    dsimp only
    rw [if_neg (fun h => h h3), if_neg (fun h => h h2)]
    rcases h1 with h1 | ⟨ht1, ht3, ht7⟩
    · rw [if_neg (fun h => h h1), if_neg (fun h => h h0)]
    · by_cases hm1 : settings.mode_selection.getD 1 0 ≠ 0
      · rw [if_pos hm1]
        unfold BC7Spec.bc7_enc_mode13 BC7Spec.bc7_enc_mode7
        have htp : settings.fast_skip_threshold_mode1 = 0 ∧
            settings.fast_skip_threshold_mode3 = 0 := ⟨ht1, ht3⟩
        rw [if_pos htp, if_pos ht7, if_neg (fun h => h h0)]
      · rw [if_neg hm1, if_neg (fun h => h h0)]
  · intro c hc hlt
    rw [BC7Spec.store_data_zero_eq]
    refine BC7Spec.foldl_write4_zero_base ((yy * bw + xx) * 16) (List.range 4) buffer _
      (Or.inr ⟨c / 4, List.mem_range.mpr (by omega), c % 4, by omega, by omega⟩) hlt
  · have hz : (BC7Spec.BitStream.ofBytes (BC7Spec.dataBytes [0, 0, 0, 0, 0])).low % 256 = 0 := by
      rw [BC7Spec.ofBytes_dataBytes]
      rfl
    have hmode :
        (BC7Spec.find_mode (BC7Spec.BitStream.ofBytes (BC7Spec.dataBytes [0, 0, 0, 0, 0]))).1 =
          8 := by
      apply BC7Spec.find_mode_go_all_zero 9 0 _ (by omega) (by omega)
      simpa using hz
    unfold BC7Spec.decode_block_bc7
    rw [if_pos (by omega :
      8 ≤ (BC7Spec.find_mode
        (BC7Spec.BitStream.ofBytes (BC7Spec.dataBytes [0, 0, 0, 0, 0]))).1)]

/-- Witness for the no candidate settings at a concrete bundle: only mode
selection flag 1 set, all fast skip thresholds zero, with identity search
bodies and a small buffer. -/
theorem no_candidate_modes_store_zero_block_witness :
    BC7Spec.compress_block_bc7_core
        { refine_iterations := [2, 2, 2, 1, 2, 2, 1, 0], mode_selection := [0, 1, 0, 0],
          skip_mode2 := 1, fast_skip_threshold_mode1 := 0, fast_skip_threshold_mode3 := 0,
          fast_skip_threshold_mode7 := 0, mode45_channel0 := 0,
          refine_iterations_channel := 0, channels := 4 }
        id id id id id [0, 0, 0, 0, 0] = [0, 0, 0, 0, 0] ∧
      (BC7Spec.store_data [0, 0, 0, 0, 0] (List.replicate 32 9) 2 0 0)[0]? = some 0 ∧
      BC7Spec.decode_block_bc7
          (BC7Spec.BitStream.ofBytes (BC7Spec.dataBytes [0, 0, 0, 0, 0]))
          (List.replicate 64 9) 16 =
        some (BC7Spec.clear_block (List.replicate 64 9) 16) := by
  have h := no_candidate_modes_store_zero_block
    { refine_iterations := [2, 2, 2, 1, 2, 2, 1, 0], mode_selection := [0, 1, 0, 0],
      skip_mode2 := 1, fast_skip_threshold_mode1 := 0, fast_skip_threshold_mode3 := 0,
      fast_skip_threshold_mode7 := 0, mode45_channel0 := 0,
      refine_iterations_channel := 0, channels := 4 }
    id id id id id (List.replicate 32 9) (List.replicate 64 9) 2 0 0 16
    (by decide) (by decide) (by decide) (Or.inr ⟨rfl, rfl, rfl⟩)
  refine ⟨h.1, ?_, h.2.2⟩
  have := h.2.1 0 (by decide) (by simp)
  simpa using this

end BC7Spec
